import Mathlib

/-!
# PDCurses `insch.c`: character insertion into a window row

A shallow embedding of `winsch` and `winsrawch` (src/pdcurses/insch.c) and the
properties of the insertion engine that follow from the code.

Modelling conventions

* `chtype` is an unsigned machine word. The code only masks it (`&`), ORs it
  (`|`), XORs two masks and adds `'@'` to a value below `0x20`; none of these
  can leave the word, so `chtype` is `Nat`.
* `int` values (cursor, window size, damage markers) are `Int`; the only
  arithmetic on them is on values between `0` and the window size.
* A row `win->_y[y]` is a `List chtype`; a read or write outside the list, a
  `memmove` whose (unsigned) byte count comes from a negative cell count and a
  division by zero are undefined behaviour in C and are reported as
  `Outcome.fault`.
* `winsch` calls itself; the embedding carries the number of stack frames it
  may still use (`fuel`) and reports `Outcome.nofuel` when it has none left.
* `curses.h` is not part of the sources: its masks and constants are the
  fields of `Env`, constrained where needed by `Env.WF`.
-/

namespace PDCurses

/-- The character-and-attribute word of curses. -/
abbrev chtype := Nat

/-- The two return values of the curses routines. -/
inductive Status where
  | OK
  | ERR
  deriving DecidableEq, Repr

/-- The fields of `WINDOW` (curses.h) that `insch.c` reads or writes. -/
structure WINDOW where
  _cury : Int
  _curx : Int
  _maxy : Int
  _maxx : Int
  _attrs : chtype
  _bkgd : chtype
  _y : List (List chtype)
  _firstch : List Int
  _lastch : List Int
  deriving DecidableEq, Repr

/-- Everything `insch.c` takes from outside the file: the masks and constants
of `curses.h`, the global `TABSIZE`, the flag `SP->raw_out`, and the
collaborator `wclrtoeol`, which is handed the window and leaves it modified. -/
structure Env where
  A_CHARTEXT : chtype
  A_ATTRIBUTES : chtype
  A_COLOR : chtype
  A_ALTCHARSET : chtype
  TABSIZE : Int
  _NO_CHANGE : Int
  raw_out : Bool
  wclrtoeol : WINDOW → WINDOW

/-- What a call of `winsch` does: it returns a status and leaves the window in
some state, having called `PDC_sync` a number of times; or it runs into
undefined behaviour; or the embedding has no stack frame left for it. -/
inductive Outcome where
  | ret (code : Status) (win : Option WINDOW) (syncs : Nat)
  | fault
  | nofuel
  deriving DecidableEq, Repr

/-- Read `l[i]` for a C `int` index. -/
def getI {α : Type} (l : List α) (i : Int) : Option α :=
  if 0 ≤ i then l[i.toNat]? else none

/-- Write `l[i] = v` for a C `int` index; `none` outside the array. -/
def setI {α : Type} (l : List α) (i : Int) (v : α) : Option (List α) :=
  if 0 ≤ i ∧ i.toNat < l.length then some (l.set i.toNat v) else none

/-- The call `memmove(row + dst, row + src, n * sizeof(chtype))` inside one row:
the `n` cells starting at `src` are copied (as if through a buffer) to the
cells starting at `dst`. A negative cell count is a huge `size_t`. -/
def memmove (row : List chtype) (dst src : Nat) (n : Int) : Option (List chtype) :=
  if 0 ≤ n ∧ dst + n.toNat ≤ row.length ∧ src + n.toNat ≤ row.length then
    some (row.take dst ++ (row.drop src).take n.toNat ++ row.drop (dst + n.toNat))
  else none

/-- Lines 175-187: the attribute stored with an inserted character. -/
def composeAttr (E : Env) (win : WINDOW) (attr : chtype) : chtype :=
  let attr := if attr &&& E.A_COLOR = 0 then attr ||| win._attrs else attr
  if attr &&& E.A_COLOR = 0 then attr ||| (win._bkgd &&& E.A_ATTRIBUTES)
  else attr ||| (win._bkgd &&& (E.A_ATTRIBUTES ^^^ E.A_COLOR))

/-- Lines 189-190: a blank is replaced by the background character. -/
def resolveGlyph (E : Env) (win : WINDOW) (ch : chtype) : chtype :=
  if ch = 0x20 then win._bkgd &&& E.A_CHARTEXT else ch

/-- Lines 196-206: shift the row right from the cursor, record the damage and
store the cell. `none` is an access outside the window's arrays. -/
def shiftInsert (E : Env) (win : WINDOW) (x y : Int) (ch : chtype) : Option WINDOW :=
  let maxx := win._maxx
  if x < 0 then none else
  match getI win._y y with
  | none => none
  | some row =>
    match memmove row (x.toNat + 1) x.toNat (maxx - x - 1) with
    | none => none
    | some moved =>
      match setI win._lastch y (maxx - 1) with
      | none => none
      | some lastch =>
        match getI win._firstch y with
        | none => none
        | some first =>
          let firstch :=
            if first = E._NO_CHANGE ∨ first > x then win._firstch.set y.toNat x
            else win._firstch
          match setI moved x ch with
          | none => none
          | some row1 =>
            some { win with _y := win._y.set y.toNat row1, _firstch := firstch, _lastch := lastch }

/-- The `else` branch of `winsch` (lines 162-207) followed by `PDC_sync` and
`return OK` (lines 209-211). -/
def insertDirect (E : Env) (win : WINDOW) (attr ch : chtype) : Outcome :=
  match shiftInsert E win win._curx win._cury
      (resolveGlyph E win ch ||| composeAttr E win attr) with
  | none => .fault
  | some win1 => .ret .OK (some win1) 1

/-- Add the `PDC_sync` calls made before a nested call to those it made. -/
def Outcome.addSyncs (n : Nat) : Outcome → Outcome
  | .ret c w s => .ret c w (n + s)
  | o => o

/-- The sequence `if (first == ERR) return ERR; return next(win);` of lines
148-151 and 156-159, `o` being what the first call did. -/
def Outcome.andThen (o : Outcome) (next : Option WINDOW → Outcome) : Outcome :=
  match o with
  | .ret .ERR w s => .ret .ERR w s
  | .ret .OK w s => (next w).addSyncs s
  | o => o

/-- The body `if (call(win) == ERR) return ERR;` run `k` times, then
`return OK` (lines 136-141). -/
def tabLoop (call : Option WINDOW → Outcome) : Nat → Option WINDOW → Nat → Outcome
  | 0, w, s => .ret .OK w s
  | k + 1, w, s =>
    match call w with
    | .ret .ERR w1 s1 => .ret .ERR w1 (s + s1)
    | .ret .OK w1 s1 => tabLoop call k w1 (s + s1)
    | o => o

/-- The routine `winsch` (lines 107-212). The loop variable `x` of the tab
branch is only compared with `x2`, so its body runs `x2 - x` times when
`x < x2` and not at all otherwise. -/
def winsch (E : Env) : Nat → Option WINDOW → chtype → Outcome
  | 0, _, _ => .nofuel
  | _ + 1, none, _ => .ret .ERR none 0
  | fuel + 1, some win, ch =>
    let x := win._curx
    let y := win._cury
    if y > win._maxy ∨ x > win._maxx ∨ y < 0 ∨ x < 0 then .ret .ERR (some win) 0
    else
      let xlat := !E.raw_out && (ch &&& E.A_ALTCHARSET == 0)
      let attr := ch &&& E.A_ATTRIBUTES
      let ch := ch &&& E.A_CHARTEXT
      if xlat = true ∧ (ch < 0x20 ∨ ch = 0x7f) then
        if ch = 0x09 then
          if E.TABSIZE = 0 then .fault
          else
            let x2 := (x.tdiv E.TABSIZE + 1) * E.TABSIZE
            tabLoop (fun w => winsch E fuel w (attr ||| 0x20)) (x2 - x).toNat (some win) 0
        else if ch = 0x0a then
          .ret .OK (some (E.wclrtoeol win)) 1
        else if ch = 0x7f then
          (winsch E fuel (some win) (attr ||| 0x3f)).andThen
            fun w => winsch E fuel w (attr ||| 0x5e)
        else
          (winsch E fuel (some win) (attr ||| (ch + 0x40))).andThen
            fun w => winsch E fuel w (attr ||| 0x5e)
      else insertDirect E win attr ch

/-- The routine `winsrawch` (lines 241-251). -/
def winsrawch (E : Env) (fuel : Nat) (win : Option WINDOW) (ch : chtype) : Outcome :=
  let ch := if ch &&& E.A_CHARTEXT < 0x20 ∨ ch &&& E.A_CHARTEXT = 0x7f
    then ch ||| E.A_ALTCHARSET else ch
  winsch E fuel win ch

/-- Modelled from the spec: `wclrtoeol` is not under src. Section 6 describes
it as resetting the visual content and damage state of the remainder of the
current row to blank: the cells of the cursor row from the cursor column to
the end of the row become the background cell, and the row is marked changed
from the cursor column to its last column. Outside the window's arrays it
leaves the window as it is. -/
def clrToEol (noChange : Int) (win : WINDOW) : WINDOW :=
  let x := win._curx
  let y := win._cury
  if x < 0 ∨ y < 0 then win else
  match win._y[y.toNat]?, win._firstch[y.toNat]? with
  | some row, some first =>
    { win with
      _y := win._y.set y.toNat
        (row.take x.toNat ++ List.replicate (row.length - x.toNat) win._bkgd)
      _firstch :=
        if first = noChange ∨ x < first then win._firstch.set y.toNat x else win._firstch
      _lastch := win._lastch.set y.toNat (win._maxx - 1) }
  | _, _ => win

/-- Modelled from the spec: `curses.h` is not under src. One instance of its
constants, used for the concrete evaluations: a 32-bit `chtype` (16 bits of
text, 16 bits of attributes of which the top 8 are the colour and the lowest
the alternate-character-set marker), a tab stop every 8 columns as in the
scenario of the spec, `-1` for "unchanged", translation enabled. -/
def curses : Env where
  A_CHARTEXT := 0x0000ffff
  A_ATTRIBUTES := 0xffff0000
  A_COLOR := 0xff000000
  A_ALTCHARSET := 0x00010000
  TABSIZE := 8
  _NO_CHANGE := -1
  raw_out := false
  wclrtoeol := clrToEol (-1)

/-- A window of `rows` rows and `cols` columns, every cell the blank `bk`,
nothing changed, cursor at `(y, x)`, no current attributes. -/
def blankWindow (rows cols : Nat) (bk : chtype) (y x : Int) : WINDOW where
  _cury := y
  _curx := x
  _maxy := rows
  _maxx := cols
  _attrs := 0
  _bkgd := bk
  _y := List.replicate rows (List.replicate cols bk)
  _firstch := List.replicate rows (-1)
  _lastch := List.replicate rows (-1)

/-- The masks of `curses.h` split the word: the seven low bits belong to the
character text, text and attributes share no bit, and the colour and the
alternate-character-set marker are attribute bits. -/
def Env.WF (E : Env) : Prop :=
  E.A_CHARTEXT &&& 0x7f = 0x7f ∧ E.A_ATTRIBUTES &&& E.A_CHARTEXT = 0 ∧
  E.A_COLOR &&& E.A_ATTRIBUTES = E.A_COLOR ∧
  E.A_ALTCHARSET &&& E.A_ATTRIBUTES = E.A_ALTCHARSET

instance (E : Env) : Decidable E.WF := by unfold Env.WF; infer_instance

/-- The window's arrays have the sizes its dimensions announce: `_maxy` rows of
`_maxx` cells and one pair of damage markers per row. -/
def WINDOW.WF (w : WINDOW) : Prop :=
  0 ≤ w._maxy ∧ 0 ≤ w._maxx ∧ w._y.length = w._maxy.toNat ∧
  (∀ row ∈ w._y, row.length = w._maxx.toNat) ∧
  w._firstch.length = w._maxy.toNat ∧ w._lastch.length = w._maxy.toNat

instance (w : WINDOW) : Decidable w.WF := by unfold WINDOW.WF; infer_instance

/-- The cursor is on a cell of the window. -/
def WINDOW.Inside (w : WINDOW) : Prop :=
  0 ≤ w._cury ∧ w._cury < w._maxy ∧ 0 ≤ w._curx ∧ w._curx < w._maxx

instance (w : WINDOW) : Decidable w.Inside := by unfold WINDOW.Inside; infer_instance

/-- The window's current attributes hold attribute bits only. -/
def WINDOW.AttrsOK (E : Env) (w : WINDOW) : Prop :=
  w._attrs &&& E.A_ATTRIBUTES = w._attrs

instance (E : Env) (w : WINDOW) : Decidable (w.AttrsOK E) := by
  unfold WINDOW.AttrsOK; infer_instance

/-- Line 129: the character is expanded instead of being inserted. -/
def Translated (E : Env) (ch : chtype) : Prop :=
  (!E.raw_out && (ch &&& E.A_ALTCHARSET == 0)) = true ∧
  (ch &&& E.A_CHARTEXT < 0x20 ∨ ch &&& E.A_CHARTEXT = 0x7f)

instance (E : Env) (ch : chtype) : Decidable (Translated E ch) := by
  unfold Translated; infer_instance

/-- The row after an insertion, in the words of the spec: the cells left of
column `x`, the new cell, and the cells from `x` on without the last one. -/
def insertedRow (pre : List chtype) (x : Nat) (cell : chtype) : List chtype :=
  pre.take x ++ [cell] ++ (pre.drop x).take (pre.length - 1 - x)

/-- The cell at column `x` of row `y`. -/
def WINDOW.cell? (w : WINDOW) (y x : Int) : Option chtype :=
  (getI w._y y).bind fun row => getI row x

/-- The window after a direct insertion of `cell` at the cursor of a
well-formed window, written out field by field. -/
def WINDOW.inserted (E : Env) (w : WINDOW) (cell : chtype) : WINDOW :=
  { w with
    _y := w._y.set w._cury.toNat
      (insertedRow (w._y.getD w._cury.toNat []) w._curx.toNat cell)
    _firstch :=
      if w._firstch.getD w._cury.toNat 0 = E._NO_CHANGE ∨
          w._firstch.getD w._cury.toNat 0 > w._curx
      then w._firstch.set w._cury.toNat w._curx else w._firstch
    _lastch := w._lastch.set w._cury.toNat (w._maxx - 1) }

/-- The window after `k` direct insertions of `cell` at its cursor. -/
def WINDOW.insertedTimes (E : Env) (cell : chtype) (k : Nat) (w : WINDOW) : WINDOW :=
  (fun v => WINDOW.inserted E v cell)^[k] w

/-- The run of `k` direct insertions of the character `ch` with attribute `attr`,
one after the other at the cursor, each of which has to return `OK`. -/
def directTimes (E : Env) (attr ch : chtype) : Nat → WINDOW → Option WINDOW
  | 0, w => some w
  | k + 1, w =>
    match insertDirect E w attr ch with
    | .ret .OK (some w1) _ => directTimes E attr ch k w1
    | _ => none

/-- What a direct insertion into row `y` leaves alone: the cursor, the
dimensions, the current style, the background, and the cells and damage
markers of every row other than `y`. -/
def WINDOW.FrameAt (w w1 : WINDOW) (y : Nat) : Prop :=
  w1._cury = w._cury ∧ w1._curx = w._curx ∧ w1._maxy = w._maxy ∧ w1._maxx = w._maxx ∧
  w1._attrs = w._attrs ∧ w1._bkgd = w._bkgd ∧
  ∀ j, j ≠ y → w1._y[j]? = w._y[j]? ∧ w1._firstch[j]? = w._firstch[j]? ∧
    w1._lastch[j]? = w._lastch[j]?

/-- Every cell of the window holds a glyph that is not a control code. -/
def WINDOW.GlyphsOK (E : Env) (w : WINDOW) : Prop :=
  ∀ row ∈ w._y, ∀ cell ∈ row,
    ¬ (cell &&& E.A_CHARTEXT < 0x20 ∨ cell &&& E.A_CHARTEXT = 0x7f)

instance (E : Env) (w : WINDOW) : Decidable (w.GlyphsOK E) := by
  unfold WINDOW.GlyphsOK; infer_instance

/-! ## The shift of one row -/

theorem set_take_succ_append (row rest : List chtype) (x : Nat) (c : chtype)
    (h : x < row.length) :
    (row.take (x + 1) ++ rest).set x c = row.take x ++ c :: rest := by
  induction row generalizing x with
  | nil => simp at h
  | cons a t ih =>
    cases x with
    | zero => simp
    | succ k =>
      have hk : k < t.length := by simpa using h
      simp [ih k hk]

theorem shiftInsert_inside (E : Env) (w : WINDOW) (cell : chtype)
    (hw : w.WF) (hi : w.Inside) :
    shiftInsert E w w._curx w._cury cell = some (w.inserted E cell) := by
  obtain ⟨hM, hN, hyl, hrows, hfl, hll⟩ := hw
  obtain ⟨hy0, hyM, hx0, hxN⟩ := hi
  have hyn : w._cury.toNat < w._maxy.toNat := by omega
  have hxn : w._curx.toNat < w._maxx.toNat := by omega
  have hylt : w._cury.toNat < w._y.length := by omega
  obtain ⟨row, hrow, hrl⟩ : ∃ row, w._y[w._cury.toNat]? = some row ∧
      row.length = w._maxx.toNat :=
    ⟨_, List.getElem?_eq_getElem hylt, hrows _ (List.getElem_mem ..)⟩
  obtain ⟨first, hfirst⟩ : ∃ f, w._firstch[w._cury.toNat]? = some f :=
    ⟨_, List.getElem?_eq_getElem (by omega)⟩
  have hn : (w._maxx - w._curx - 1).toNat = w._maxx.toNat - 1 - w._curx.toNat := by omega
  have hgD : w._y.getD w._cury.toNat [] = row := by
    simp [List.getD, hrow]
  have hfD : w._firstch.getD w._cury.toNat 0 = first := by
    simp [List.getD, hfirst]
  have hmm : memmove row (w._curx.toNat + 1) w._curx.toNat (w._maxx - w._curx - 1)
      = some (row.take (w._curx.toNat + 1) ++
          (row.drop w._curx.toNat).take (w._maxx.toNat - 1 - w._curx.toNat)) := by
    unfold memmove
    rw [hn, if_pos (by omega)]
    have : w._curx.toNat + 1 + (w._maxx.toNat - 1 - w._curx.toNat) = row.length := by omega
    rw [this, List.drop_length, List.append_nil]
  have hset : setI (row.take (w._curx.toNat + 1) ++
          (row.drop w._curx.toNat).take (w._maxx.toNat - 1 - w._curx.toNat)) w._curx cell
      = some (insertedRow row w._curx.toNat cell) := by
    unfold setI insertedRow
    rw [if_pos, set_take_succ_append _ _ _ _ (by omega), hrl]
    · simp
    · refine ⟨hx0, ?_⟩
      simp only [List.length_append, List.length_take, List.length_drop]
      omega
  have hls : setI w._lastch w._cury (w._maxx - 1)
      = some (w._lastch.set w._cury.toNat (w._maxx - 1)) := by
    unfold setI
    rw [if_pos ⟨hy0, by omega⟩]
  unfold shiftInsert WINDOW.inserted
  simp only [getI, if_pos hy0, hrow, hfirst, hmm, hset, hls, hgD, hfD,
    if_neg (not_lt.mpr hx0)]

theorem insertedRow_length (pre : List chtype) (x : Nat) (c : chtype)
    (h : x < pre.length) : (insertedRow pre x c).length = pre.length := by
  simp only [insertedRow, List.length_append, List.length_take, List.length_drop,
    List.length_singleton]
  omega

theorem insertedRow_left (pre : List chtype) (x : Nat) (c : chtype) (i : Nat)
    (h : x < pre.length) (hi : i < x) : (insertedRow pre x c)[i]? = pre[i]? := by
  unfold insertedRow
  rw [List.append_assoc, List.getElem?_append_left (by simp; omega),
    List.getElem?_take_of_lt hi]

theorem insertedRow_at (pre : List chtype) (x : Nat) (c : chtype)
    (h : x < pre.length) : (insertedRow pre x c)[x]? = some c := by
  unfold insertedRow
  rw [List.append_assoc, List.getElem?_append_right (by simp)]
  simp [Nat.min_eq_left (Nat.le_of_lt h)]

theorem insertedRow_right (pre : List chtype) (x : Nat) (c : chtype) (i : Nat)
    (h : x < pre.length) (hi : x ≤ i) (hl : i + 1 < pre.length) :
    (insertedRow pre x c)[i + 1]? = pre[i]? := by
  unfold insertedRow
  have hlen : (pre.take x ++ [c]).length = x + 1 := by
    simp [Nat.min_eq_left (Nat.le_of_lt h)]
  rw [List.getElem?_append_right (by omega), hlen,
    List.getElem?_take_of_lt (by omega), List.getElem?_drop]
  congr 1
  omega

/-! ## The direct insertion -/

theorem insertDirect_inside (E : Env) (w : WINDOW) (attr ch : chtype)
    (hw : w.WF) (hi : w.Inside) :
    insertDirect E w attr ch =
      .ret .OK (some (w.inserted E (resolveGlyph E w ch ||| composeAttr E w attr))) 1 := by
  unfold insertDirect
  rw [shiftInsert_inside E w _ hw hi]

theorem winsch_not_translated (E : Env) (fuel : Nat) (w : WINDOW) (ch : chtype)
    (hc : ¬ (w._cury > w._maxy ∨ w._curx > w._maxx ∨ w._cury < 0 ∨ w._curx < 0))
    (hd : ¬ Translated E ch) :
    winsch E (fuel + 1) (some w) ch =
      insertDirect E w (ch &&& E.A_ATTRIBUTES) (ch &&& E.A_CHARTEXT) := by
  unfold Translated at hd
  simp only [winsch]
  rw [if_neg hc, if_neg hd]

theorem check_of_inside (w : WINDOW) (hi : w.Inside) :
    ¬ (w._cury > w._maxy ∨ w._curx > w._maxx ∨ w._cury < 0 ∨ w._curx < 0) := by
  obtain ⟨h1, h2, h3, h4⟩ := hi
  omega

@[simp] theorem inserted_cury (E : Env) (w : WINDOW) (c : chtype) :
    (w.inserted E c)._cury = w._cury := rfl

@[simp] theorem inserted_curx (E : Env) (w : WINDOW) (c : chtype) :
    (w.inserted E c)._curx = w._curx := rfl

@[simp] theorem inserted_maxy (E : Env) (w : WINDOW) (c : chtype) :
    (w.inserted E c)._maxy = w._maxy := rfl

@[simp] theorem inserted_maxx (E : Env) (w : WINDOW) (c : chtype) :
    (w.inserted E c)._maxx = w._maxx := rfl

@[simp] theorem inserted_attrs (E : Env) (w : WINDOW) (c : chtype) :
    (w.inserted E c)._attrs = w._attrs := rfl

@[simp] theorem inserted_bkgd (E : Env) (w : WINDOW) (c : chtype) :
    (w.inserted E c)._bkgd = w._bkgd := rfl

theorem inserted_row (E : Env) (w : WINDOW) (c : chtype) (hw : w.WF) (hi : w.Inside) :
    ∃ pre, w._y[w._cury.toNat]? = some pre ∧ pre.length = w._maxx.toNat ∧
      (w.inserted E c)._y[w._cury.toNat]? = some (insertedRow pre w._curx.toNat c) := by
  obtain ⟨hM, hN, hyl, hrows, hfl, hll⟩ := hw
  obtain ⟨hy0, hyM, hx0, hxN⟩ := hi
  have hylt : w._cury.toNat < w._y.length := by omega
  refine ⟨w._y[w._cury.toNat], List.getElem?_eq_getElem hylt,
    hrows _ (List.getElem_mem ..), ?_⟩
  simp only [WINDOW.inserted, List.getD, List.get?_eq_getElem?,
    List.getElem?_eq_getElem hylt, Option.getD_some]
  rw [List.getElem?_set_self hylt]

theorem inserted_WF (E : Env) (w : WINDOW) (c : chtype) (hw : w.WF) (hi : w.Inside) :
    (w.inserted E c).WF := by
  obtain ⟨pre, hpre, hlen, -⟩ := inserted_row E w c hw hi
  obtain ⟨hM, hN, hyl, hrows, hfl, hll⟩ := hw
  obtain ⟨hy0, hyM, hx0, hxN⟩ := hi
  have hgD : w._y.getD w._cury.toNat [] = pre := by simp [List.getD, hpre]
  refine ⟨hM, hN, ?_, ?_, ?_, ?_⟩
  · simpa [WINDOW.inserted] using hyl
  · intro row hrow
    simp only [WINDOW.inserted, hgD] at hrow
    rcases List.mem_or_eq_of_mem_set hrow with h | h
    · exact hrows row h
    · rw [h, insertedRow_length pre _ c (by omega)]
      exact hlen
  · simp only [WINDOW.inserted]
    split <;> simpa using hfl
  · simpa [WINDOW.inserted] using hll

theorem inserted_Inside (E : Env) (w : WINDOW) (c : chtype) (hi : w.Inside) :
    (w.inserted E c).Inside := hi

theorem inserted_cell (E : Env) (w : WINDOW) (c : chtype) (hw : w.WF) (hi : w.Inside) :
    (w.inserted E c).cell? w._cury w._curx = some c := by
  obtain ⟨pre, hpre, hlen, hrow⟩ := inserted_row E w c hw hi
  obtain ⟨hy0, hyM, hx0, hxN⟩ := hi
  unfold WINDOW.cell? getI
  rw [if_pos hy0, hrow]
  simp only [Option.some_bind, if_pos hx0]
  exact insertedRow_at pre _ c (by omega)

theorem inserted_markers (E : Env) (w : WINDOW) (c : chtype) (hw : w.WF) (hi : w.Inside) :
    ∃ first, getI w._firstch w._cury = some first ∧
      getI (w.inserted E c)._firstch w._cury =
        some (if first = E._NO_CHANGE ∨ first > w._curx then w._curx else first) ∧
      getI (w.inserted E c)._lastch w._cury = some (w._maxx - 1) := by
  obtain ⟨hM, hN, hyl, hrows, hfl, hll⟩ := hw
  obtain ⟨hy0, hyM, hx0, hxN⟩ := hi
  have hyf : w._cury.toNat < w._firstch.length := by omega
  have hyl2 : w._cury.toNat < w._lastch.length := by omega
  refine ⟨w._firstch[w._cury.toNat], ?_, ?_, ?_⟩
  · simp [getI, hy0, List.getElem?_eq_getElem hyf]
  · simp only [getI, if_pos hy0, WINDOW.inserted, List.getD, List.get?_eq_getElem?,
      List.getElem?_eq_getElem hyf, Option.getD_some]
    split
    · rw [List.getElem?_set_self hyf]
    · rw [List.getElem?_eq_getElem hyf]
  · simp only [getI, if_pos hy0, WINDOW.inserted]
    rw [List.getElem?_set_self hyl2]

/-- A direct insertion that does not fault changes row `y` only, whatever the
window is. -/
theorem shiftInsert_frame (E : Env) (w w1 : WINDOW) (x y : Int) (c : chtype)
    (h : shiftInsert E w x y c = some w1) : w.FrameAt w1 y.toNat := by
  unfold shiftInsert at h
  simp only [] at h
  split at h
  · exact absurd h (by simp)
  · split at h
    · exact absurd h (by simp)
    · split at h
      · exact absurd h (by simp)
      · split at h
        · exact absurd h (by simp)
        · rename_i lastch hl
          split at h
          · exact absurd h (by simp)
          · split at h
            · exact absurd h (by simp)
            · have h1 := Option.some.inj h
              have hlast : lastch = w._lastch.set y.toNat (w._maxx - 1) := by
                unfold setI at hl
                split at hl
                · exact (Option.some.inj hl).symm
                · exact absurd hl (by simp)
              subst h1
              refine ⟨rfl, rfl, rfl, rfl, rfl, rfl, ?_⟩
              intro j hj
              refine ⟨?_, ?_, ?_⟩
              · exact List.getElem?_set_ne (Ne.symm hj)
              · show (if _ then _ else _)[j]? = _
                split
                · exact List.getElem?_set_ne (Ne.symm hj)
                · rfl
              · rw [hlast]
                exact List.getElem?_set_ne (Ne.symm hj)

/-! ## Masks -/

theorem and_of_lt_128 (g : Nat) (h : g < 0x80) : g &&& 0x7f = g := by
  have h7 := Nat.and_pow_two_sub_one_eq_mod g 7
  norm_num at h7
  rw [h7]
  omega

theorem and_sub_trans (g m n : Nat) (h1 : g &&& m = g) (h2 : m &&& n = m) :
    g &&& n = g := by
  rw [← h1, Nat.and_assoc, h2]

theorem and_disjoint (g m n : Nat) (h1 : g &&& m = g) (h2 : n &&& m = 0) :
    g &&& n = 0 := by
  rw [← h1, Nat.and_assoc, Nat.and_comm m n, h2, Nat.and_zero]

theorem or_and_keep (g s m : Nat) (hs : s &&& m = s) (hg : g &&& m = 0) :
    (g ||| s) &&& m = s := by
  apply Nat.eq_of_testBit_eq
  intro i
  have h1 := congrArg (fun t => t.testBit i) hs
  have h2 := congrArg (fun t => t.testBit i) hg
  simp only [Nat.testBit_and, Nat.testBit_or, Nat.zero_testBit] at h1 h2 ⊢
  revert h1 h2
  cases s.testBit i <;> cases g.testBit i <;> cases m.testBit i <;> simp

theorem or_sub (a b m : Nat) (ha : a &&& m = a) (hb : b &&& m = b) :
    (a ||| b) &&& m = a ||| b := by
  apply Nat.eq_of_testBit_eq
  intro i
  have h1 := congrArg (fun t => t.testBit i) ha
  have h2 := congrArg (fun t => t.testBit i) hb
  simp only [Nat.testBit_and, Nat.testBit_or] at h1 h2 ⊢
  revert h1 h2
  cases a.testBit i <;> cases b.testBit i <;> cases m.testBit i <;> simp

theorem and_and_self (b m : Nat) : (b &&& m) &&& m = b &&& m := by
  rw [Nat.and_assoc, Nat.and_self]

theorem noncolor_sub (b m c : Nat) (hc : c &&& m = c) :
    (b &&& (m ^^^ c)) &&& m = b &&& (m ^^^ c) := by
  apply Nat.eq_of_testBit_eq
  intro i
  have h1 := congrArg (fun t => t.testBit i) hc
  simp only [Nat.testBit_and, Nat.testBit_xor] at h1 ⊢
  revert h1
  cases b.testBit i <;> cases c.testBit i <;> cases m.testBit i <;> simp

theorem noncolor_and_color (b m c : Nat) (hc : c &&& m = c) :
    (b &&& (m ^^^ c)) &&& c = 0 := by
  apply Nat.eq_of_testBit_eq
  intro i
  have h1 := congrArg (fun t => t.testBit i) hc
  simp only [Nat.testBit_and, Nat.testBit_xor, Nat.zero_testBit] at h1 ⊢
  revert h1
  cases b.testBit i <;> cases c.testBit i <;> cases m.testBit i <;> simp

theorem or_and_distrib (a b c : Nat) : (a ||| b) &&& c = (a &&& c) ||| (b &&& c) := by
  apply Nat.eq_of_testBit_eq
  intro i
  simp only [Nat.testBit_and, Nat.testBit_or]
  cases a.testBit i <;> cases b.testBit i <;> cases c.testBit i <;> simp

/-- A value below `0x80` is character text and carries no attribute bit. -/
theorem text_of_lt_128 (E : Env) (hE : E.WF) (g : Nat) (h : g < 0x80) :
    g &&& E.A_CHARTEXT = g ∧ g &&& E.A_ATTRIBUTES = 0 := by
  obtain ⟨h7, hd, -, -⟩ := hE
  have hg : g &&& E.A_CHARTEXT = g :=
    and_sub_trans g 0x7f _ (and_of_lt_128 g h) (by rw [Nat.and_comm]; exact h7)
  exact ⟨hg, and_disjoint g _ _ hg hd⟩

/-- The nested call `winsch(win, attr | g)` sees the attribute `attr` and the
character `g` again. -/
theorem decode (E : Env) (hE : E.WF) (a g : Nat) (h : g < 0x80) :
    ((a &&& E.A_ATTRIBUTES) ||| g) &&& E.A_ATTRIBUTES = a &&& E.A_ATTRIBUTES ∧
    ((a &&& E.A_ATTRIBUTES) ||| g) &&& E.A_CHARTEXT = g := by
  obtain ⟨hg1, hg2⟩ := text_of_lt_128 E hE g h
  obtain ⟨h7, hd, -, -⟩ := hE
  constructor
  · rw [Nat.or_comm]
    exact or_and_keep _ _ _ (and_and_self _ _) hg2
  · exact or_and_keep _ _ _ hg1 (by rw [Nat.and_assoc, hd, Nat.and_zero])

/-! ## Style composition -/

theorem composeAttr_color (E : Env) (w : WINDOW) (a : chtype) (hc : a &&& E.A_COLOR ≠ 0) :
    composeAttr E w a = a ||| (w._bkgd &&& (E.A_ATTRIBUTES ^^^ E.A_COLOR)) := by
  simp only [composeAttr, if_neg hc]

theorem composeAttr_nocolor (E : Env) (w : WINDOW) (a : chtype) (hc : a &&& E.A_COLOR = 0) :
    composeAttr E w a =
      if (a ||| w._attrs) &&& E.A_COLOR = 0
      then a ||| w._attrs ||| (w._bkgd &&& E.A_ATTRIBUTES)
      else a ||| w._attrs ||| (w._bkgd &&& (E.A_ATTRIBUTES ^^^ E.A_COLOR)) := by
  simp only [composeAttr, if_pos hc]

theorem composeAttr_sub (E : Env) (hE : E.WF) (w : WINDOW) (a : chtype)
    (ha : a &&& E.A_ATTRIBUTES = a)
    (hS : a &&& E.A_COLOR = 0 → w.AttrsOK E) :
    composeAttr E w a &&& E.A_ATTRIBUTES = composeAttr E w a := by
  obtain ⟨-, -, hcol, -⟩ := hE
  by_cases hc : a &&& E.A_COLOR = 0
  · rw [composeAttr_nocolor E w a hc]
    have h1 := or_sub _ _ _ ha (hS hc)
    split
    · exact or_sub _ _ _ h1 (and_and_self _ _)
    · exact or_sub _ _ _ h1 (noncolor_sub _ _ _ hcol)
  · rw [composeAttr_color E w a hc]
    exact or_sub _ _ _ ha (noncolor_sub _ _ _ hcol)

theorem resolveGlyph_text (E : Env) (w : WINDOW) (ch : chtype) :
    resolveGlyph E w (ch &&& E.A_CHARTEXT) &&& E.A_CHARTEXT =
      resolveGlyph E w (ch &&& E.A_CHARTEXT) := by
  unfold resolveGlyph
  split <;> exact and_and_self _ _

/-- A stored cell `g | s` splits again into its text `g` and its style `s`. -/
theorem cell_split (E : Env) (hE : E.WF) (g s : chtype)
    (hg : g &&& E.A_CHARTEXT = g) (hs : s &&& E.A_ATTRIBUTES = s) :
    (g ||| s) &&& E.A_ATTRIBUTES = s ∧ (g ||| s) &&& E.A_CHARTEXT = g := by
  obtain ⟨-, hd, -, -⟩ := hE
  constructor
  · exact or_and_keep _ _ _ hs (and_disjoint g _ _ hg hd)
  · rw [Nat.or_comm]
    exact or_and_keep _ _ _ hg (and_disjoint s _ _ hs (by rw [Nat.and_comm]; exact hd))

/-- A direct insertion at a cursor inside a well-formed window. -/
theorem winsch_direct (E : Env) (fuel : Nat) (w : WINDOW) (ch : chtype)
    (hw : w.WF) (hi : w.Inside) (hd : ¬ Translated E ch) :
    winsch E (fuel + 1) (some w) ch =
      .ret .OK (some (w.inserted E (resolveGlyph E w (ch &&& E.A_CHARTEXT) |||
        composeAttr E w (ch &&& E.A_ATTRIBUTES)))) 1 := by
  rw [winsch_not_translated E fuel w ch (check_of_inside w hi) hd,
    insertDirect_inside E w _ _ hw hi]

theorem noncolor_zero (b m c : Nat) (hb : b &&& m = 0) : b &&& (m ^^^ c) &&& m = 0 := by
  rw [Nat.and_assoc, Nat.and_comm (m ^^^ c), ← Nat.and_assoc, hb, Nat.zero_and]

/-! ## Expansion of control characters -/

theorem winsch_translated (E : Env) (fuel : Nat) (w : WINDOW) (ch : chtype)
    (hc : ¬ (w._cury > w._maxy ∨ w._curx > w._maxx ∨ w._cury < 0 ∨ w._curx < 0))
    (ht : Translated E ch) :
    winsch E (fuel + 1) (some w) ch =
      if ch &&& E.A_CHARTEXT = 0x09 then
        if E.TABSIZE = 0 then .fault
        else tabLoop (fun v => winsch E fuel v ((ch &&& E.A_ATTRIBUTES) ||| 0x20))
          ((w._curx.tdiv E.TABSIZE + 1) * E.TABSIZE - w._curx).toNat (some w) 0
      else if ch &&& E.A_CHARTEXT = 0x0a then .ret .OK (some (E.wclrtoeol w)) 1
      else if ch &&& E.A_CHARTEXT = 0x7f then
        (winsch E fuel (some w) ((ch &&& E.A_ATTRIBUTES) ||| 0x3f)).andThen
          fun v => winsch E fuel v ((ch &&& E.A_ATTRIBUTES) ||| 0x5e)
      else
        (winsch E fuel (some w) ((ch &&& E.A_ATTRIBUTES) ||| ((ch &&& E.A_CHARTEXT) + 0x40))).andThen
          fun v => winsch E fuel v ((ch &&& E.A_ATTRIBUTES) ||| 0x5e) := by
  unfold Translated at ht
  simp only [winsch]
  rw [if_neg hc, if_pos ht]

/-- A nested call with a printable glyph `g` is a direct insertion. -/
theorem winsch_nested (E : Env) (hE : E.WF) (fuel : Nat) (w : WINDOW) (a g : chtype)
    (hw : w.WF) (hi : w.Inside) (hg : g < 0x80) (hn : ¬ (g < 0x20 ∨ g = 0x7f)) :
    winsch E (fuel + 1) (some w) ((a &&& E.A_ATTRIBUTES) ||| g) =
      .ret .OK (some (w.inserted E (resolveGlyph E w g |||
        composeAttr E w (a &&& E.A_ATTRIBUTES)))) 1 := by
  obtain ⟨h1, h2⟩ := decode E hE a g hg
  have hd : ¬ Translated E ((a &&& E.A_ATTRIBUTES) ||| g) := by
    intro h
    have h3 := h.2
    rw [h2] at h3
    exact hn h3
  rw [winsch_direct E fuel w _ hw hi hd, h1, h2]

/-- The two nested insertions of the `^X` notation: first the companion glyph
`g`, then the caret. -/
theorem winsch_caret_pair (E : Env) (hE : E.WF) (fuel : Nat) (w : WINDOW) (a g : chtype)
    (hw : w.WF) (hi : w.Inside) (hg : g < 0x80) (hn : ¬ (g < 0x20 ∨ g = 0x7f))
    (hb : g ≠ 0x20) :
    (winsch E (fuel + 1) (some w) ((a &&& E.A_ATTRIBUTES) ||| g)).andThen
        (fun v => winsch E (fuel + 1) v ((a &&& E.A_ATTRIBUTES) ||| 0x5e)) =
      .ret .OK (some ((w.inserted E (g ||| composeAttr E w (a &&& E.A_ATTRIBUTES))).inserted E
        (0x5e ||| composeAttr E w (a &&& E.A_ATTRIBUTES)))) 2 := by
  rw [winsch_nested E hE fuel w a g hw hi hg hn]
  simp only [Outcome.andThen]
  rw [winsch_nested E hE fuel _ a 0x5e (inserted_WF E w _ hw hi) (inserted_Inside E w _ hi)
    (by norm_num) (by norm_num)]
  simp only [Outcome.addSyncs, resolveGlyph, if_neg hb]
  rfl

/-- The row and the cells after the two insertions of `winsch_caret_pair`. -/
theorem inserted_twice_cells (E : Env) (w : WINDOW) (c1 c2 : chtype)
    (hw : w.WF) (hi : w.Inside) :
    ∃ pre row2, w._y[w._cury.toNat]? = some pre ∧ pre.length = w._maxx.toNat ∧
      ((w.inserted E c1).inserted E c2)._y[w._cury.toNat]? = some row2 ∧
      row2.length = w._maxx.toNat ∧
      ((w.inserted E c1).inserted E c2).cell? w._cury w._curx = some c2 ∧
      (w._curx + 1 < w._maxx →
        ((w.inserted E c1).inserted E c2).cell? w._cury (w._curx + 1) = some c1) ∧
      (∀ i, i < w._curx.toNat → row2[i]? = pre[i]?) ∧
      (∀ i, w._curx.toNat ≤ i → i + 2 < w._maxx.toNat → row2[i + 2]? = pre[i]?) := by
  obtain ⟨pre, hpre, hlen, hrow1⟩ := inserted_row E w c1 hw hi
  have hw1 := inserted_WF E w c1 hw hi
  have hi1 := inserted_Inside E w c1 hi
  obtain ⟨pre1, hpre1, hlen1, hrow2⟩ := inserted_row E (w.inserted E c1) c2 hw1 hi1
  simp only [inserted_cury, inserted_curx, inserted_maxx] at hpre1 hlen1 hrow2
  have hp : pre1 = insertedRow pre w._curx.toNat c1 :=
    Option.some.inj (hpre1.symm.trans hrow1)
  obtain ⟨hy0, hyM, hx0, hxN⟩ := hi
  have hx : w._curx.toNat < pre.length := by omega
  have hx1 : w._curx.toNat < pre1.length := by
    rw [hp, insertedRow_length pre _ c1 hx]
    exact hx
  have hl1 : pre1.length = pre.length := by rw [hp, insertedRow_length pre _ c1 hx]
  refine ⟨pre, _, hpre, hlen, hrow2, ?_, inserted_cell E _ c2 hw1 hi1, ?_, ?_, ?_⟩
  · rw [insertedRow_length pre1 _ c2 hx1, hl1, hlen]
  · intro hlt
    unfold WINDOW.cell? getI
    rw [if_pos hy0]
    have hrow2b : ((w.inserted E c1).inserted E c2)._y[w._cury.toNat]? =
        some (insertedRow pre1 w._curx.toNat c2) := hrow2
    rw [hrow2b]
    simp only [Option.some_bind]
    rw [if_pos (by omega)]
    have hn : (w._curx + 1).toNat = w._curx.toNat + 1 := by omega
    rw [hn]
    show (insertedRow pre1 w._curx.toNat c2)[w._curx.toNat + 1]? = some c1
    rw [insertedRow_right pre1 _ c2 _ hx1 (le_refl _) (by omega), hp]
    exact insertedRow_at pre _ c1 hx
  · intro i h
    show (insertedRow pre1 w._curx.toNat c2)[i]? = pre[i]?
    rw [insertedRow_left pre1 _ c2 i hx1 h, hp]
    exact insertedRow_left pre _ c1 i hx h
  · intro i h1 h2
    show (insertedRow pre1 w._curx.toNat c2)[i + 1 + 1]? = pre[i]?
    rw [insertedRow_right pre1 _ c2 _ hx1 (by omega) (by omega), hp]
    exact insertedRow_right pre _ c1 i hx h1 (by omega)

/-- The companion glyph of the caret is printable and is not the blank. -/
theorem caret_companion (c : Nat) (h : c < 0x20 ∨ c = 0x7f) :
    (if c = 0x7f then 0x3f else c + 0x40) < 0x80 ∧
    ¬ ((if c = 0x7f then 0x3f else c + 0x40) < 0x20 ∨
      (if c = 0x7f then 0x3f else c + 0x40) = 0x7f) ∧
    (if c = 0x7f then 0x3f else c + 0x40) ≠ 0x20 := by
  rcases h with h | h
  · rw [if_neg (by omega)]
    omega
  · rw [if_pos h]
    omega

/-- The delete code and the control codes other than tab and newline, at a
cursor inside the window: two direct insertions, both returning `OK`. -/
theorem winsch_caret_call (E : Env) (hE : E.WF) (fuel : Nat) (w : WINDOW) (ch : chtype)
    (hw : w.WF) (hi : w.Inside) (ht : Translated E ch)
    (h9 : ch &&& E.A_CHARTEXT ≠ 0x09) (h10 : ch &&& E.A_CHARTEXT ≠ 0x0a) :
    winsch E (fuel + 2) (some w) ch =
      .ret .OK (some ((w.inserted E
        ((if ch &&& E.A_CHARTEXT = 0x7f then 0x3f else (ch &&& E.A_CHARTEXT) + 0x40) |||
          composeAttr E w (ch &&& E.A_ATTRIBUTES))).inserted E
        (0x5e ||| composeAttr E w (ch &&& E.A_ATTRIBUTES)))) 2 := by
  have hg := caret_companion (ch &&& E.A_CHARTEXT) ht.2
  rw [winsch_translated E (fuel + 1) w ch (check_of_inside w hi) ht, if_neg h9, if_neg h10,
    ← winsch_caret_pair E hE fuel w ch _ hw hi hg.1 hg.2.1 hg.2.2]
  by_cases h7 : ch &&& E.A_CHARTEXT = 0x7f
  · rw [if_pos h7, if_pos h7]
  · rw [if_neg h7, if_neg h7]

/-! ## Expansion of a tab -/

theorem insertedRow_take_append (A S : List chtype) (c : chtype) (N : Nat)
    (h : A.length < N) (hS : N ≤ A.length + S.length) :
    insertedRow ((A ++ S).take N) A.length c = (A ++ c :: S).take N := by
  have hr : (A ++ S).take N = A ++ S.take (N - A.length) := by
    rw [List.take_append_eq_append_take, List.take_of_length_le (le_of_lt h)]
  have hl : (A ++ S.take (N - A.length)).length = N := by
    simp only [List.length_append, List.length_take]
    omega
  unfold insertedRow
  rw [hr, hl, List.take_left', List.drop_left', List.take_take,
    List.take_append_eq_append_take, List.take_of_length_le (le_of_lt h)]
  · obtain ⟨m, hm⟩ : ∃ m, N - A.length = m + 1 := ⟨N - A.length - 1, by omega⟩
    rw [hm, List.take_succ_cons]
    have h1 : N - 1 - A.length = m := by omega
    rw [h1, Nat.min_eq_left (Nat.le_succ m)]
    simp
  · rfl
  · rfl

theorem insertedRow_replicate (pre : List chtype) (x k : Nat) (c : chtype)
    (h : x < pre.length) :
    insertedRow ((pre.take x ++ List.replicate k c ++ pre.drop x).take pre.length) x c =
      (pre.take x ++ List.replicate (k + 1) c ++ pre.drop x).take pre.length := by
  have hA : (pre.take x).length = x := by
    rw [List.length_take]
    omega
  have h1 := insertedRow_take_append (pre.take x) (List.replicate k c ++ pre.drop x) c
    pre.length (by omega) (by
      simp only [List.length_append, List.length_replicate, List.length_drop]
      omega)
  rw [hA] at h1
  rw [List.append_assoc, h1, List.replicate_succ, List.append_assoc]
  rfl

theorem insertedTimes_zero (E : Env) (c : chtype) (w : WINDOW) :
    WINDOW.insertedTimes E c 0 w = w := rfl

theorem insertedTimes_succ (E : Env) (c : chtype) (k : Nat) (w : WINDOW) :
    WINDOW.insertedTimes E c (k + 1) w = (WINDOW.insertedTimes E c k w).inserted E c :=
  Function.iterate_succ_apply' _ _ _

theorem insertedTimes_front (E : Env) (c : chtype) (k : Nat) (w : WINDOW) :
    WINDOW.insertedTimes E c (k + 1) w = WINDOW.insertedTimes E c k (w.inserted E c) :=
  Function.iterate_succ_apply _ _ _

theorem insertedTimes_props (E : Env) (w : WINDOW) (c : chtype) (hw : w.WF) (hi : w.Inside)
    (pre : List chtype) (hpre : w._y[w._cury.toNat]? = some pre) (k : Nat) :
    (WINDOW.insertedTimes E c k w).WF ∧ (WINDOW.insertedTimes E c k w).Inside ∧
    (WINDOW.insertedTimes E c k w)._cury = w._cury ∧
    (WINDOW.insertedTimes E c k w)._curx = w._curx ∧
    (WINDOW.insertedTimes E c k w)._maxx = w._maxx ∧
    (WINDOW.insertedTimes E c k w)._y[w._cury.toNat]? =
      some ((pre.take w._curx.toNat ++ List.replicate k c ++
        pre.drop w._curx.toNat).take pre.length) := by
  induction k with
  | zero =>
    refine ⟨hw, hi, rfl, rfl, rfl, ?_⟩
    rw [insertedTimes_zero, hpre]
    simp
  | succ k ih =>
    obtain ⟨hwk, hik, hy, hx, hN, hrow⟩ := ih
    obtain ⟨pre1, hpre1, hlen1, hrow1⟩ := inserted_row E _ c hwk hik
    rw [hy, hx] at hrow1
    rw [hy] at hpre1
    have hp : pre1 = (pre.take w._curx.toNat ++ List.replicate k c ++
        pre.drop w._curx.toNat).take pre.length :=
      Option.some.inj (hpre1.symm.trans hrow)
    have hxl : w._curx.toNat < pre.length := by
      have h1 : pre.length = w._maxx.toNat := by
        obtain ⟨-, -, -, hrows, -, -⟩ := hw
        exact hrows pre (List.getElem?_mem hpre)
      obtain ⟨-, -, h3, h4⟩ := hi
      omega
    rw [insertedTimes_succ]
    refine ⟨inserted_WF E _ c hwk hik, inserted_Inside E _ c hik, hy, hx, hN, ?_⟩
    rw [hrow1, hp, insertedRow_replicate pre _ k c hxl]

/-- The tab loop at a cursor inside the window: every nested call is a direct
insertion of the composed blank and returns `OK`. -/
theorem tabLoop_inside (E : Env) (hE : E.WF) (fuel : Nat) (a c : chtype) (k : Nat) :
    ∀ (w : WINDOW) (s : Nat), w.WF → w.Inside →
      c = resolveGlyph E w 0x20 ||| composeAttr E w (a &&& E.A_ATTRIBUTES) →
      tabLoop (fun v => winsch E (fuel + 1) v ((a &&& E.A_ATTRIBUTES) ||| 0x20)) k (some w) s =
        .ret .OK (some (WINDOW.insertedTimes E c k w)) (s + k) ∧
      directTimes E (a &&& E.A_ATTRIBUTES) 0x20 k w = some (WINDOW.insertedTimes E c k w) := by
  induction k with
  | zero =>
    intro w s _ _ _
    exact ⟨rfl, rfl⟩
  | succ k ih =>
    intro w s hw hi hc
    obtain ⟨h1, h2⟩ := ih (w.inserted E c) (s + 1) (inserted_WF E w c hw hi)
      (inserted_Inside E w c hi) hc
    constructor
    · simp only [tabLoop]
      rw [winsch_nested E hE fuel w a 0x20 hw hi (by norm_num) (by norm_num), ← hc]
      simp only []
      rw [h1, insertedTimes_front, Nat.add_assoc, Nat.add_comm 1 k]
    · simp only [directTimes]
      rw [insertDirect_inside E w _ _ hw hi, ← hc]
      simp only []
      rw [h2, insertedTimes_front]

theorem tab_count (x T : Int) (hx : 0 ≤ x) (hT : 0 < T) :
    (x.tdiv T + 1) * T - x = T - x % T ∧ 1 ≤ T - x % T := by
  have h1 := Int.emod_add_ediv x T
  have h2 := Int.emod_lt_of_pos x hT
  rw [Int.tdiv_eq_ediv hx (le_of_lt hT)]
  constructor
  · linear_combination h1
  · omega

/-- With the cursor on a cell of a well-formed window and a tab width that is
positive, `winsch` returns `OK` for every character: no nested insertion of an
expansion fails, and two stack frames are enough. -/
theorem winsch_inside_returns_OK (E : Env) (hE : E.WF) (hT : 0 < E.TABSIZE) (fuel : Nat)
    (w : WINDOW) (ch : chtype) (hw : w.WF) (hi : w.Inside) :
    ∃ w1 n, winsch E (fuel + 2) (some w) ch = .ret .OK (some w1) n := by
  by_cases ht : Translated E ch
  · by_cases h9 : ch &&& E.A_CHARTEXT = 0x09
    · obtain ⟨hcnt, -⟩ := tab_count w._curx E.TABSIZE hi.2.2.1 hT
      obtain ⟨hloop, -⟩ := tabLoop_inside E hE fuel ch _
        (E.TABSIZE - w._curx % E.TABSIZE).toNat w 0 hw hi rfl
      have h := winsch_translated E (fuel + 1) w ch (check_of_inside w hi) ht
      rw [if_pos h9, if_neg (ne_of_gt hT), hcnt, hloop] at h
      exact ⟨_, _, h⟩
    · by_cases h10 : ch &&& E.A_CHARTEXT = 0x0a
      · have h := winsch_translated E (fuel + 1) w ch (check_of_inside w hi) ht
        rw [if_neg h9, if_pos h10] at h
        exact ⟨_, _, h⟩
      · exact ⟨_, _, winsch_caret_call E hE fuel w ch hw hi ht h9 h10⟩
  · exact ⟨_, _, winsch_direct E (fuel + 1) w ch hw hi ht⟩

/-! ## Frame, colour and the last column -/

theorem inserted_frame (E : Env) (w : WINDOW) (c : chtype) (hw : w.WF) (hi : w.Inside) :
    w.FrameAt (w.inserted E c) w._cury.toNat :=
  shiftInsert_frame E w _ _ _ c (shiftInsert_inside E w c hw hi)

theorem WINDOW.FrameAt.trans {w w1 w2 : WINDOW} {y : Nat} (h1 : w.FrameAt w1 y)
    (h2 : w1.FrameAt w2 y) : w.FrameAt w2 y := by
  obtain ⟨a1, a2, a3, a4, a5, a6, a7⟩ := h1
  obtain ⟨b1, b2, b3, b4, b5, b6, b7⟩ := h2
  refine ⟨b1.trans a1, b2.trans a2, b3.trans a3, b4.trans a4, b5.trans a5, b6.trans a6, ?_⟩
  intro j hj
  exact ⟨(b7 j hj).1.trans (a7 j hj).1, (b7 j hj).2.1.trans (a7 j hj).2.1,
    (b7 j hj).2.2.trans (a7 j hj).2.2⟩

/-- What a call of `winsch` with a character that is not translated can
return: `ERR` with the window untouched, or `OK` after one shift. -/
theorem winsch_direct_cases (E : Env) (fuel : Nat) (w : WINDOW) (ch : chtype)
    (hd : ¬ Translated E ch) (c : Status) (r : Option WINDOW) (n : Nat)
    (h : winsch E fuel (some w) ch = .ret c r n) :
    (c = .ERR ∧ r = some w ∧ n = 0) ∨
    (c = .OK ∧ n = 1 ∧ ∃ w1, r = some w1 ∧
      shiftInsert E w w._curx w._cury (resolveGlyph E w (ch &&& E.A_CHARTEXT) |||
        composeAttr E w (ch &&& E.A_ATTRIBUTES)) = some w1) := by
  cases fuel with
  | zero => simp [winsch] at h
  | succ fuel =>
    by_cases hc : w._cury > w._maxy ∨ w._curx > w._maxx ∨ w._cury < 0 ∨ w._curx < 0
    · simp only [winsch] at h
      rw [if_pos hc] at h
      injection h with h1 h2 h3
      exact Or.inl ⟨h1.symm, h2.symm, h3.symm⟩
    · rw [winsch_not_translated E fuel w ch hc hd] at h
      unfold insertDirect at h
      split at h
      · exact absurd h (by simp)
      · rename_i w1 hs
        injection h with h1 h2 h3
        exact Or.inr ⟨h1.symm, h3.symm, w1, h2.symm, hs⟩

theorem insertedRow_last (pre : List chtype) (x : Nat) (c : chtype)
    (h : x + 1 = pre.length) : insertedRow pre x c = pre.take x ++ [c] := by
  unfold insertedRow
  have h0 : pre.length - 1 - x = 0 := by omega
  rw [h0, List.take_zero, List.append_nil]

theorem insertedRow_last_twice (pre : List chtype) (x : Nat) (c1 c2 : chtype)
    (h : x + 1 = pre.length) :
    insertedRow (insertedRow pre x c1) x c2 = pre.take x ++ [c2] := by
  have hl : (pre.take x).length = x := by
    rw [List.length_take]
    omega
  rw [insertedRow_last pre x c1 h, insertedRow_last _ x c2 (by simp [hl])]
  rw [List.take_left' hl]

/-- The colour of the composed style: the first of the incoming colour, the
colour of the current style and the colour of the background that is not
zero. -/
theorem composeAttr_color_field (E : Env) (hE : E.WF) (w : WINDOW) (a : chtype) :
    composeAttr E w a &&& E.A_COLOR =
      if a &&& E.A_COLOR ≠ 0 then a &&& E.A_COLOR
      else if w._attrs &&& E.A_COLOR ≠ 0 then w._attrs &&& E.A_COLOR
      else w._bkgd &&& E.A_COLOR := by
  have hcol : E.A_COLOR &&& E.A_ATTRIBUTES = E.A_COLOR := hE.2.2.1
  by_cases hc : a &&& E.A_COLOR = 0
  · rw [if_neg (not_not.mpr hc), composeAttr_nocolor E w a hc]
    have h1 : (a ||| w._attrs) &&& E.A_COLOR = w._attrs &&& E.A_COLOR := by
      rw [or_and_distrib, hc, Nat.zero_or]
    rw [h1]
    by_cases hs : w._attrs &&& E.A_COLOR = 0
    · rw [if_pos hs, if_neg (not_not.mpr hs), or_and_distrib, h1, hs, Nat.zero_or,
        Nat.and_assoc, Nat.and_comm E.A_ATTRIBUTES, hcol]
    · rw [if_neg hs, if_pos hs, or_and_distrib, h1, noncolor_and_color _ _ _ hcol,
        Nat.or_zero]
  · rw [if_pos hc, composeAttr_color E w a hc, or_and_distrib,
      noncolor_and_color _ _ _ hcol, Nat.or_zero]

/-- The character text of a cell carries no colour bit. -/
theorem text_and_color (E : Env) (hE : E.WF) (g s : chtype)
    (hg : g &&& E.A_CHARTEXT = g) : (g ||| s) &&& E.A_COLOR = s &&& E.A_COLOR := by
  obtain ⟨-, hd, hcol, -⟩ := hE
  have h1 : g &&& E.A_ATTRIBUTES = 0 := and_disjoint g _ _ hg hd
  have h2 : g &&& E.A_COLOR = 0 := by
    rw [← hcol, ← Nat.and_assoc, Nat.and_comm g, Nat.and_assoc, h1, Nat.and_zero]
  rw [or_and_distrib, h2, Nat.zero_or]

/-! ## The raw variant -/

theorem or_and_absorb (a m : Nat) : (a ||| m) &&& m = m := by
  apply Nat.eq_of_testBit_eq
  intro i
  simp only [Nat.testBit_and, Nat.testBit_or]
  cases a.testBit i <;> cases m.testBit i <;> simp

theorem or_or_and_left (a b c : Nat) : (a ||| b ||| c) &&& a = a := by
  apply Nat.eq_of_testBit_eq
  intro i
  simp only [Nat.testBit_and, Nat.testBit_or]
  cases a.testBit i <;> cases b.testBit i <;> cases c.testBit i <;> simp

theorem or_and_left_self (a b : Nat) : (a ||| b) &&& a = a := by
  apply Nat.eq_of_testBit_eq
  intro i
  simp only [Nat.testBit_and, Nat.testBit_or]
  cases a.testBit i <;> cases b.testBit i <;> simp

theorem or_keeps_bits (g s m : Nat) (h : s &&& m = m) : (g ||| s) &&& m = m := by
  apply Nat.eq_of_testBit_eq
  intro i
  have h1 := congrArg (fun t => t.testBit i) h
  simp only [Nat.testBit_and, Nat.testBit_or] at h1 ⊢
  revert h1
  cases g.testBit i <;> cases s.testBit i <;> cases m.testBit i <;> simp

/-- The composed style still has every incoming attribute bit. -/
theorem composeAttr_sup (E : Env) (w : WINDOW) (a : chtype) :
    composeAttr E w a &&& a = a := by
  by_cases hc : a &&& E.A_COLOR = 0
  · rw [composeAttr_nocolor E w a hc]
    split
    · exact or_or_and_left _ _ _
    · exact or_or_and_left _ _ _
  · rw [composeAttr_color E w a hc]
    exact or_and_left_self _ _

/-- A character that `winsrawch` has marked is not translated, and keeps its
text. -/
theorem marked_not_translated (E : Env) (hE : E.WF) (halt : E.A_ALTCHARSET ≠ 0)
    (ch : chtype) :
    ¬ Translated E (ch ||| E.A_ALTCHARSET) ∧
    (ch ||| E.A_ALTCHARSET) &&& E.A_CHARTEXT = ch &&& E.A_CHARTEXT ∧
    ((ch ||| E.A_ALTCHARSET) &&& E.A_ATTRIBUTES) &&& E.A_ALTCHARSET = E.A_ALTCHARSET := by
  obtain ⟨-, hd, -, hsub⟩ := hE
  refine ⟨?_, ?_, ?_⟩
  · intro h
    have h1 := h.1
    rw [or_and_absorb] at h1
    simp only [Bool.and_eq_true, beq_iff_eq] at h1
    exact halt h1.2
  · have h0 : E.A_ALTCHARSET &&& E.A_CHARTEXT = 0 :=
      and_disjoint _ _ _ hsub (by rw [Nat.and_comm]; exact hd)
    rw [or_and_distrib, h0, Nat.or_zero]
  · rw [Nat.and_assoc, Nat.and_comm E.A_ATTRIBUTES, hsub, or_and_absorb]

/-! ## Recursion depth -/

/-- A nested call with a printable glyph needs one stack frame, whatever the
window. -/
theorem winsch_nested_fuel (E : Env) (hE : E.WF) (a g : chtype) (hg : g < 0x80)
    (hn : ¬ (g < 0x20 ∨ g = 0x7f)) (fuel : Nat) (v : Option WINDOW) :
    ¬ Translated E ((a &&& E.A_ATTRIBUTES) ||| g) ∧
    winsch E (fuel + 1) v ((a &&& E.A_ATTRIBUTES) ||| g) =
      winsch E 1 v ((a &&& E.A_ATTRIBUTES) ||| g) ∧
    winsch E 1 v ((a &&& E.A_ATTRIBUTES) ||| g) ≠ .nofuel := by
  obtain ⟨-, h2⟩ := decode E hE a g hg
  have hd : ¬ Translated E ((a &&& E.A_ATTRIBUTES) ||| g) := by
    intro h
    have h3 := h.2
    rw [h2] at h3
    exact hn h3
  refine ⟨hd, ?_, ?_⟩
  · cases v with
    | none => simp only [winsch]
    | some w =>
      by_cases hc : w._cury > w._maxy ∨ w._curx > w._maxx ∨ w._cury < 0 ∨ w._curx < 0
      · simp only [winsch]
        rw [if_pos hc, if_pos hc]
      · rw [winsch_not_translated E fuel w _ hc hd, winsch_not_translated E 0 w _ hc hd]
  · cases v with
    | none => simp [winsch]
    | some w =>
      by_cases hc : w._cury > w._maxy ∨ w._curx > w._maxx ∨ w._cury < 0 ∨ w._curx < 0
      · simp only [winsch]
        rw [if_pos hc]
        simp
      · rw [winsch_not_translated E 0 w _ hc hd]
        unfold insertDirect
        split <;> simp

theorem tabLoop_ne_nofuel (call : Option WINDOW → Outcome) (hcall : ∀ v, call v ≠ .nofuel)
    (k : Nat) : ∀ (v : Option WINDOW) (s : Nat), tabLoop call k v s ≠ .nofuel := by
  induction k with
  | zero =>
    intro v s
    simp [tabLoop]
  | succ k ih =>
    intro v s
    simp only [tabLoop]
    have h := hcall v
    split
    · simp
    · exact ih _ _
    · rename_i o h1 h2
      exact h

theorem andThen_ne_nofuel (o : Outcome) (next : Option WINDOW → Outcome)
    (ho : o ≠ .nofuel) (hnext : ∀ v, next v ≠ .nofuel) : o.andThen next ≠ .nofuel := by
  unfold Outcome.andThen
  split
  · simp
  · rename_i w s
    have h := hnext w
    unfold Outcome.addSyncs
    split
    · simp
    · rename_i o1 h1
      exact h
  · exact ho

/-- Two stack frames are enough for `winsch`, and more are never used. -/
theorem winsch_two_frames (E : Env) (hE : E.WF) (win : Option WINDOW) (ch : chtype) :
    winsch E 2 win ch ≠ .nofuel ∧ ∀ fuel, winsch E (fuel + 2) win ch = winsch E 2 win ch := by
  have key : ∀ (g : chtype), g < 0x80 → ¬ (g < 0x20 ∨ g = 0x7f) → ∀ fuel,
      ((fun v => winsch E (fuel + 1) v ((ch &&& E.A_ATTRIBUTES) ||| g)) =
        fun v => winsch E 1 v ((ch &&& E.A_ATTRIBUTES) ||| g)) ∧
      ∀ v, winsch E 1 v ((ch &&& E.A_ATTRIBUTES) ||| g) ≠ .nofuel := by
    intro g hg hn fuel
    exact ⟨funext fun v => (winsch_nested_fuel E hE ch g hg hn fuel v).2.1,
      fun v => (winsch_nested_fuel E hE ch g hg hn 0 v).2.2⟩
  cases win with
  | none => exact ⟨by simp [winsch], fun fuel => by simp only [winsch]⟩
  | some w =>
    by_cases hc : w._cury > w._maxy ∨ w._curx > w._maxx ∨ w._cury < 0 ∨ w._curx < 0
    · refine ⟨?_, fun fuel => ?_⟩
      · simp only [winsch]
        rw [if_pos hc]
        simp
      · simp only [winsch]
        rw [if_pos hc, if_pos hc]
    · by_cases ht : Translated E ch
      · have hcomp := caret_companion (ch &&& E.A_CHARTEXT) ht.2
        have e1 := winsch_translated E 1 w ch hc ht
        by_cases h9 : ch &&& E.A_CHARTEXT = 0x09
        · rw [if_pos h9] at e1
          refine ⟨?_, fun fuel => ?_⟩
          · rw [e1]
            split
            · simp
            · exact tabLoop_ne_nofuel _ (key 0x20 (by norm_num) (by norm_num) 0).2 _ _ _
          · rw [winsch_translated E (fuel + 1) w ch hc ht, if_pos h9, e1,
              (key 0x20 (by norm_num) (by norm_num) fuel).1]
        · rw [if_neg h9] at e1
          by_cases h10 : ch &&& E.A_CHARTEXT = 0x0a
          · rw [if_pos h10] at e1
            refine ⟨?_, fun fuel => ?_⟩
            · rw [e1]
              simp
            · rw [winsch_translated E (fuel + 1) w ch hc ht, if_neg h9, if_pos h10, e1]
          · rw [if_neg h10] at e1
            by_cases h7 : ch &&& E.A_CHARTEXT = 0x7f
            · rw [if_pos h7] at e1
              refine ⟨?_, fun fuel => ?_⟩
              · rw [e1]
                exact andThen_ne_nofuel _ _
                  ((key 0x3f (by norm_num) (by norm_num) 0).2 _)
                  ((key 0x5e (by norm_num) (by norm_num) 0).2)
              · rw [winsch_translated E (fuel + 1) w ch hc ht, if_neg h9, if_neg h10,
                  if_pos h7, e1, (key 0x5e (by norm_num) (by norm_num) fuel).1,
                  (winsch_nested_fuel E hE ch 0x3f (by norm_num) (by norm_num) fuel _).2.1]
            · rw [if_neg h7] at e1
              rw [if_neg h7] at hcomp
              refine ⟨?_, fun fuel => ?_⟩
              · rw [e1]
                exact andThen_ne_nofuel _ _
                  ((key _ hcomp.1 hcomp.2.1 0).2 _)
                  ((key 0x5e (by norm_num) (by norm_num) 0).2)
              · rw [winsch_translated E (fuel + 1) w ch hc ht, if_neg h9, if_neg h10,
                  if_neg h7, e1, (key 0x5e (by norm_num) (by norm_num) fuel).1,
                  (winsch_nested_fuel E hE ch _ hcomp.1 hcomp.2.1 fuel _).2.1]
      · refine ⟨?_, fun fuel => ?_⟩
        · rw [winsch_not_translated E 1 w ch hc ht]
          unfold insertDirect
          split <;> simp
        · rw [winsch_not_translated E (fuel + 1) w ch hc ht,
            winsch_not_translated E 1 w ch hc ht]

/-! ## Clearing to the end of the line -/

/-- The spec's `wclrtoeol` leaves the cells left of the cursor as they are. -/
theorem clrToEol_left (nc : Int) (w : WINDOW) (i : Int) (hi : i < w._curx) :
    (clrToEol nc w).cell? w._cury i = w.cell? w._cury i := by
  unfold clrToEol
  simp only []
  split
  · rfl
  · rename_i hneg
    push_neg at hneg
    obtain ⟨hx0, hy0⟩ := hneg
    split
    · rename_i row first hrow hfirst
      have hylt : w._cury.toNat < w._y.length := by
        by_contra hge
        rw [List.getElem?_eq_none (by omega)] at hrow
        exact absurd hrow (by simp)
      unfold WINDOW.cell? getI
      simp only [if_pos hy0]
      rw [List.getElem?_set_self hylt, hrow]
      simp only [Option.some_bind]
      by_cases hi0 : 0 ≤ i
      · rw [if_pos hi0, if_pos hi0]
        by_cases hil : i.toNat < row.length
        · rw [List.getElem?_append_left (by rw [List.length_take]; omega),
            List.getElem?_take_of_lt (by omega)]
        · have h1 : row[i.toNat]? = none := List.getElem?_eq_none (by omega)
          have h2 : (row.take w._curx.toNat ++
              List.replicate (row.length - w._curx.toNat) w._bkgd)[i.toNat]? = none := by
            apply List.getElem?_eq_none
            simp only [List.length_append, List.length_take, List.length_replicate]
            omega
          rw [h1, h2]
      · rw [if_neg hi0, if_neg hi0]
    · rfl

/-! ## Glyphs of the stored cells -/

theorem mem_insertedRow (pre : List chtype) (x : Nat) (c cell : chtype)
    (h : cell ∈ insertedRow pre x c) : cell = c ∨ cell ∈ pre := by
  unfold insertedRow at h
  simp only [List.mem_append, List.mem_singleton] at h
  rcases h with (h | h) | h
  · exact Or.inr (List.mem_of_mem_take h)
  · exact Or.inl h
  · exact Or.inr (List.mem_of_mem_drop (List.mem_of_mem_take h))

theorem inserted_glyphs (E : Env) (w : WINDOW) (c : chtype) (hg : w.GlyphsOK E)
    (hc : ¬ (c &&& E.A_CHARTEXT < 0x20 ∨ c &&& E.A_CHARTEXT = 0x7f)) :
    (w.inserted E c).GlyphsOK E := by
  intro row hrow cell hcell
  have hrow1 : row ∈ w._y.set w._cury.toNat
      (insertedRow (w._y.getD w._cury.toNat []) w._curx.toNat c) := hrow
  rcases List.mem_or_eq_of_mem_set hrow1 with h | h
  · exact hg row h cell hcell
  · rw [h] at hcell
    rcases mem_insertedRow _ _ _ _ hcell with h1 | h1
    · rw [h1]
      exact hc
    · cases hy : w._y[w._cury.toNat]? with
      | none =>
        simp only [List.getD, List.get?_eq_getElem?, hy, Option.getD_none] at h1
        exact absurd h1 (List.not_mem_nil _)
      | some r =>
        simp only [List.getD, List.get?_eq_getElem?, hy, Option.getD_some] at h1
        exact hg r (List.getElem?_mem hy) cell h1

theorem insertedTimes_glyphs (E : Env) (w : WINDOW) (c : chtype) (hg : w.GlyphsOK E)
    (hc : ¬ (c &&& E.A_CHARTEXT < 0x20 ∨ c &&& E.A_CHARTEXT = 0x7f)) (k : Nat) :
    (WINDOW.insertedTimes E c k w).GlyphsOK E := by
  induction k with
  | zero => exact hg
  | succ k ih =>
    rw [insertedTimes_succ]
    exact inserted_glyphs E _ c ih hc

/-- The spec's `wclrtoeol` fills with the background cell, whose glyph is the
background glyph. -/
theorem clrToEol_glyphs (E : Env) (nc : Int) (w : WINDOW) (hg : w.GlyphsOK E)
    (hb : ¬ (w._bkgd &&& E.A_CHARTEXT < 0x20 ∨ w._bkgd &&& E.A_CHARTEXT = 0x7f)) :
    (clrToEol nc w).GlyphsOK E := by
  unfold clrToEol
  simp only []
  split
  · exact hg
  · split
    · rename_i row first hrow hfirst
      intro r hr cell hcell
      have hr1 : r ∈ w._y.set w._cury.toNat (row.take w._curx.toNat ++
          List.replicate (row.length - w._curx.toNat) w._bkgd) := hr
      rcases List.mem_or_eq_of_mem_set hr1 with h | h
      · exact hg r h cell hcell
      · rw [h, List.mem_append] at hcell
        rcases hcell with h1 | h1
        · exact hg row (List.getElem?_mem hrow) cell (List.mem_of_mem_take h1)
        · rw [List.eq_of_mem_replicate h1]
          exact hb
    · exact hg

/-- The glyph of the cell stored by a direct insertion, translation being
enabled. -/
theorem stored_glyph_printable (E : Env) (hE : E.WF) (w : WINDOW) (ha : w.AttrsOK E)
    (g a : chtype) (hgt : g &&& E.A_CHARTEXT = g)
    (hg : ¬ (g < 0x20 ∨ g = 0x7f))
    (hb : ¬ (w._bkgd &&& E.A_CHARTEXT < 0x20 ∨ w._bkgd &&& E.A_CHARTEXT = 0x7f)) :
    ¬ ((resolveGlyph E w g ||| composeAttr E w (a &&& E.A_ATTRIBUTES)) &&& E.A_CHARTEXT < 0x20 ∨
      (resolveGlyph E w g ||| composeAttr E w (a &&& E.A_ATTRIBUTES)) &&& E.A_CHARTEXT = 0x7f) := by
  have hsub := composeAttr_sub E hE w (a &&& E.A_ATTRIBUTES) (and_and_self _ _)
    (fun _ => ha)
  have hrt : resolveGlyph E w g &&& E.A_CHARTEXT = resolveGlyph E w g := by
    unfold resolveGlyph
    split
    · exact and_and_self _ _
    · exact hgt
  rw [(cell_split E hE _ _ hrt hsub).2]
  unfold resolveGlyph
  split
  · exact hb
  · exact hg

/-! ## The cursor -/

/-- A call with a character that is not translated leaves the cursor where it
is, whatever it returns. -/
theorem winsch_direct_cursor (E : Env) (fuel : Nat) (w : WINDOW) (ch : chtype)
    (hd : ¬ Translated E ch) (c : Status) (r : Option WINDOW) (n : Nat)
    (h : winsch E fuel (some w) ch = .ret c r n) :
    ∃ w1, r = some w1 ∧ w1._curx = w._curx ∧ w1._cury = w._cury := by
  rcases winsch_direct_cases E fuel w ch hd c r n h with ⟨-, hr, -⟩ | ⟨-, -, w1, hr, hs⟩
  · exact ⟨w, hr, rfl, rfl⟩
  · obtain ⟨a1, a2, -⟩ := shiftInsert_frame E w w1 _ _ _ hs
    exact ⟨w1, hr, a2, a1⟩

theorem tabLoop_cursor (call : Option WINDOW → Outcome)
    (hcall : ∀ (v : WINDOW) c r n, call (some v) = .ret c r n →
      ∃ v1, r = some v1 ∧ v1._curx = v._curx ∧ v1._cury = v._cury)
    (k : Nat) : ∀ (w : WINDOW) (s : Nat) c r n, tabLoop call k (some w) s = .ret c r n →
      ∃ w1, r = some w1 ∧ w1._curx = w._curx ∧ w1._cury = w._cury := by
  induction k with
  | zero =>
    intro w s c r n h
    simp only [tabLoop] at h
    injection h with h1 h2 h3
    exact ⟨w, h2.symm, rfl, rfl⟩
  | succ k ih =>
    intro w s c r n h
    simp only [tabLoop] at h
    cases hc : call (some w) with
    | ret c1 r1 n1 =>
      obtain ⟨v1, hr1, hx, hy⟩ := hcall w c1 r1 n1 hc
      rw [hc] at h
      cases c1 with
      | ERR =>
        simp only [] at h
        injection h with h1 h2 h3
        exact ⟨v1, h2.symm.trans hr1, hx, hy⟩
      | OK =>
        simp only [] at h
        rw [hr1] at h
        obtain ⟨w1, hr, hx1, hy1⟩ := ih v1 _ c r n h
        exact ⟨w1, hr, hx1.trans hx, hy1.trans hy⟩
    | fault =>
      rw [hc] at h
      exact absurd h (by simp)
    | nofuel =>
      rw [hc] at h
      exact absurd h (by simp)

theorem andThen_cursor (o : Outcome) (next : Option WINDOW → Outcome) (w : WINDOW)
    (ho : ∀ c r n, o = .ret c r n → ∃ v1, r = some v1 ∧ v1._curx = w._curx ∧ v1._cury = w._cury)
    (hnext : ∀ (v : WINDOW) c r n, next (some v) = .ret c r n →
      ∃ v1, r = some v1 ∧ v1._curx = v._curx ∧ v1._cury = v._cury)
    (c : Status) (r : Option WINDOW) (n : Nat) (h : o.andThen next = .ret c r n) :
    ∃ w1, r = some w1 ∧ w1._curx = w._curx ∧ w1._cury = w._cury := by
  cases o with
  | ret c1 r1 n1 =>
    obtain ⟨v1, hr1, hx, hy⟩ := ho c1 r1 n1 rfl
    cases c1 with
    | ERR =>
      simp only [Outcome.andThen] at h
      injection h with h1 h2 h3
      exact ⟨v1, h2.symm.trans hr1, hx, hy⟩
    | OK =>
      simp only [Outcome.andThen] at h
      rw [hr1] at h
      cases hn : next (some v1) with
      | ret c2 r2 n2 =>
        obtain ⟨v2, hr2, hx2, hy2⟩ := hnext v1 c2 r2 n2 hn
        rw [hn] at h
        simp only [Outcome.addSyncs] at h
        injection h with h1 h2 h3
        exact ⟨v2, h2.symm.trans hr2, hx2.trans hx, hy2.trans hy⟩
      | fault =>
        rw [hn] at h
        exact absurd h (by simp [Outcome.addSyncs])
      | nofuel =>
        rw [hn] at h
        exact absurd h (by simp [Outcome.addSyncs])
  | fault => exact absurd h (by simp [Outcome.andThen])
  | nofuel => exact absurd h (by simp [Outcome.andThen])

/-- Whatever `winsch` returns, on whatever window, the cursor is where it was,
provided `wclrtoeol` leaves it there when a newline is translated. -/
theorem winsch_cursor (E : Env) (hE : E.WF) (fuel : Nat) (w : WINDOW) (ch : chtype)
    (hnl : Translated E ch → ch &&& E.A_CHARTEXT = 0x0a →
      (E.wclrtoeol w)._curx = w._curx ∧ (E.wclrtoeol w)._cury = w._cury)
    (c : Status) (r : Option WINDOW) (n : Nat)
    (h : winsch E fuel (some w) ch = .ret c r n) :
    ∃ w1, r = some w1 ∧ w1._curx = w._curx ∧ w1._cury = w._cury := by
  by_cases ht : Translated E ch
  · cases fuel with
    | zero => exact absurd h (by simp [winsch])
    | succ fuel =>
      by_cases hc : w._cury > w._maxy ∨ w._curx > w._maxx ∨ w._cury < 0 ∨ w._curx < 0
      · simp only [winsch] at h
        rw [if_pos hc] at h
        injection h with h1 h2 h3
        exact ⟨w, h2.symm, rfl, rfl⟩
      · have hnest : ∀ (g : chtype), g < 0x80 → ¬ (g < 0x20 ∨ g = 0x7f) →
            ∀ (v : WINDOW) c r n,
              winsch E fuel (some v) ((ch &&& E.A_ATTRIBUTES) ||| g) = .ret c r n →
              ∃ v1, r = some v1 ∧ v1._curx = v._curx ∧ v1._cury = v._cury := by
          intro g hg hn v c r n hv
          exact winsch_direct_cursor E fuel v _
            (winsch_nested_fuel E hE ch g hg hn 0 none).1 c r n hv
        have hcomp := caret_companion (ch &&& E.A_CHARTEXT) ht.2
        rw [winsch_translated E fuel w ch hc ht] at h
        by_cases h9 : ch &&& E.A_CHARTEXT = 0x09
        · rw [if_pos h9] at h
          by_cases hT : E.TABSIZE = 0
          · rw [if_pos hT] at h
            exact absurd h (by simp)
          · rw [if_neg hT] at h
            exact tabLoop_cursor _ (hnest 0x20 (by norm_num) (by norm_num)) _ w 0 c r n h
        · rw [if_neg h9] at h
          by_cases h10 : ch &&& E.A_CHARTEXT = 0x0a
          · rw [if_pos h10] at h
            injection h with h1 h2 h3
            exact ⟨E.wclrtoeol w, h2.symm, (hnl ht h10).1, (hnl ht h10).2⟩
          · rw [if_neg h10] at h
            by_cases h7 : ch &&& E.A_CHARTEXT = 0x7f
            · rw [if_pos h7] at h
              exact andThen_cursor _ _ w
                (fun c1 r1 n1 h1 => hnest 0x3f (by norm_num) (by norm_num) w c1 r1 n1 h1)
                (hnest 0x5e (by norm_num) (by norm_num)) c r n h
            · rw [if_neg h7] at h
              rw [if_neg h7] at hcomp
              exact andThen_cursor _ _ w
                (fun c1 r1 n1 h1 => hnest _ hcomp.1 hcomp.2.1 w c1 r1 n1 h1)
                (hnest 0x5e (by norm_num) (by norm_num)) c r n h
  · exact winsch_direct_cursor E fuel w ch ht c r n h

/-! ## The claims -/

/-- C1: when the cursor fails the bounds check (`y < 0`, `y > _maxy`, `x < 0`
or `x > _maxx`), `winsch` and `winsrawch` return `ERR` and the window they
leave is the window they were given: every cell, every damage marker and the
cursor are as before, and `PDC_sync` was not called. -/
theorem winsch_outside_returns_ERR (E : Env) (fuel : Nat) (w : WINDOW) (ch : chtype)
    (h : w._cury < 0 ∨ w._cury > w._maxy ∨ w._curx < 0 ∨ w._curx > w._maxx) :
    winsch E (fuel + 1) (some w) ch = .ret .ERR (some w) 0 ∧
    winsrawch E (fuel + 1) (some w) ch = .ret .ERR (some w) 0 := by
  have hc : w._cury > w._maxy ∨ w._curx > w._maxx ∨ w._cury < 0 ∨ w._curx < 0 := by
    omega
  constructor
  · simp only [winsch]
    rw [if_pos hc]
  · simp only [winsrawch, winsch]
    rw [if_pos hc]

theorem winsch_outside_returns_ERR_witness :
    ((blankWindow 1 10 0x20 0 11)._cury < 0 ∨
      (blankWindow 1 10 0x20 0 11)._cury > (blankWindow 1 10 0x20 0 11)._maxy ∨
      (blankWindow 1 10 0x20 0 11)._curx < 0 ∨
      (blankWindow 1 10 0x20 0 11)._curx > (blankWindow 1 10 0x20 0 11)._maxx) ∧
    winsch curses 1 (some (blankWindow 1 10 0x20 0 11)) 0x41 =
      .ret .ERR (some (blankWindow 1 10 0x20 0 11)) 0 ∧
    winsrawch curses 1 (some (blankWindow 1 10 0x20 0 11)) 0x41 =
      .ret .ERR (some (blankWindow 1 10 0x20 0 11)) 0 :=
  ⟨by decide, winsch_outside_returns_ERR curses 0 (blankWindow 1 10 0x20 0 11) 0x41 (by decide)⟩

/-- C2: in a well-formed window of width `N = _maxx` with the cursor on a cell
`(y, x)`, a direct (not translated) insertion by `winsch` returns `OK` and
turns row `y` from `pre` into `pre[0..x) ++ [cell] ++ pre[x..N-1)`, where
`cell` is the resolved glyph ORed with the composed style: the row keeps its
length, the cells left of `x` are untouched, the cell at `x` is the new cell,
and the cell that was at column `i` with `x ≤ i ≤ N-2` is found at `i+1`, so
the cell that was at `N-1` is gone. -/
theorem winsch_direct_shifts_row (E : Env) (fuel : Nat) (w : WINDOW) (ch : chtype)
    (hw : w.WF) (hi : w.Inside) (hd : ¬ Translated E ch) :
    ∃ w1 pre row1, w._y[w._cury.toNat]? = some pre ∧ pre.length = w._maxx.toNat ∧
      winsch E (fuel + 1) (some w) ch = .ret .OK (some w1) 1 ∧
      w1._y[w._cury.toNat]? = some row1 ∧
      row1 = pre.take w._curx.toNat ++
        [resolveGlyph E w (ch &&& E.A_CHARTEXT) ||| composeAttr E w (ch &&& E.A_ATTRIBUTES)] ++
        (pre.drop w._curx.toNat).take (w._maxx.toNat - 1 - w._curx.toNat) ∧
      row1.length = w._maxx.toNat ∧
      (∀ i, i < w._curx.toNat → row1[i]? = pre[i]?) ∧
      row1[w._curx.toNat]? = some (resolveGlyph E w (ch &&& E.A_CHARTEXT) |||
        composeAttr E w (ch &&& E.A_ATTRIBUTES)) ∧
      (∀ i, w._curx.toNat ≤ i → i + 1 < w._maxx.toNat → row1[i + 1]? = pre[i]?) := by
  obtain ⟨pre, hpre, hlen, hrow⟩ := inserted_row E w
    (resolveGlyph E w (ch &&& E.A_CHARTEXT) ||| composeAttr E w (ch &&& E.A_ATTRIBUTES)) hw hi
  have hx : w._curx.toNat < pre.length := by
    obtain ⟨-, -, h3, h4⟩ := hi
    omega
  refine ⟨_, pre, _, hpre, hlen, winsch_direct E fuel w ch hw hi hd, hrow, ?_, ?_, ?_, ?_, ?_⟩
  · rw [insertedRow, hlen]
  · rw [insertedRow_length pre _ _ hx, hlen]
  · intro i h
    exact insertedRow_left pre _ _ i hx h
  · exact insertedRow_at pre _ _ hx
  · intro i h1 h2
    exact insertedRow_right pre _ _ i hx h1 (by omega)

theorem winsch_direct_shifts_row_witness :
    ∃ w1 pre row1, [[0x61, 0x62, 0x63, 0x64]][(0 : Int).toNat]? = some pre ∧
      pre.length = (4 : Int).toNat ∧
      winsch curses 1 (some { blankWindow 1 4 0x20 0 1 with _y := [[0x61, 0x62, 0x63, 0x64]] })
        0x41 = .ret .OK (some w1) 1 ∧
      w1._y[(0 : Int).toNat]? = some row1 ∧
      row1 = pre.take (1 : Int).toNat ++ [0x41] ++
        (pre.drop (1 : Int).toNat).take ((4 : Int).toNat - 1 - (1 : Int).toNat) ∧
      row1.length = (4 : Int).toNat ∧
      (∀ i, i < (1 : Int).toNat → row1[i]? = pre[i]?) ∧
      row1[(1 : Int).toNat]? = some 0x41 ∧
      (∀ i, (1 : Int).toNat ≤ i → i + 1 < (4 : Int).toNat → row1[i + 1]? = pre[i]?) :=
  winsch_direct_shifts_row curses 0
    { blankWindow 1 4 0x20 0 1 with _y := [[0x61, 0x62, 0x63, 0x64]] } 0x41
    (by decide) (by decide) (by decide)

/-- C3: the bounds check does not establish the precondition of the shift.
The window has one row of three cells and its cursor is at column `3 = _maxx`:
the check of line 122 passes (`x > _maxx` is false), the column is not below
the width, the cell count handed to `memmove` is `-1`, the row access of lines
196-206 is out of range and `winsch` runs into undefined behaviour instead of
returning. Likewise with the cursor at row `1 = _maxy`: the check passes and
the window has no row `1`. -/
theorem winsch_check_passes_at_maxx :
    (blankWindow 1 3 0x20 0 3).WF ∧
    ¬ ((blankWindow 1 3 0x20 0 3)._cury > (blankWindow 1 3 0x20 0 3)._maxy ∨
       (blankWindow 1 3 0x20 0 3)._curx > (blankWindow 1 3 0x20 0 3)._maxx ∨
       (blankWindow 1 3 0x20 0 3)._cury < 0 ∨ (blankWindow 1 3 0x20 0 3)._curx < 0) ∧
    ¬ ((blankWindow 1 3 0x20 0 3)._curx < (blankWindow 1 3 0x20 0 3)._maxx) ∧
    (blankWindow 1 3 0x20 0 3)._maxx - (blankWindow 1 3 0x20 0 3)._curx - 1 = -1 ∧
    memmove [0x20, 0x20, 0x20] 4 3 (-1) = none ∧
    shiftInsert curses (blankWindow 1 3 0x20 0 3) 3 0 0x41 = none ∧
    winsch curses 1 (some (blankWindow 1 3 0x20 0 3)) 0x41 = .fault ∧
    ¬ ((blankWindow 1 3 0x20 1 0)._cury > (blankWindow 1 3 0x20 1 0)._maxy ∨
       (blankWindow 1 3 0x20 1 0)._curx > (blankWindow 1 3 0x20 1 0)._maxx ∨
       (blankWindow 1 3 0x20 1 0)._cury < 0 ∨ (blankWindow 1 3 0x20 1 0)._curx < 0) ∧
    getI (blankWindow 1 3 0x20 1 0)._y 1 = none ∧
    winsch curses 1 (some (blankWindow 1 3 0x20 1 0)) 0x41 = .fault := by
  decide

/-- C6: a direct insertion whose incoming style `attr = ch & A_ATTRIBUTES` has
a colour component stores a cell whose style is
`attr | (_bkgd & (A_ATTRIBUTES ^ A_COLOR))`: the stored colour field is the
incoming colour, the window's current style `_attrs` does not occur, and the
background contributes no colour bit. -/
theorem winsch_direct_style_with_color (E : Env) (fuel : Nat) (w : WINDOW) (ch : chtype)
    (hE : E.WF) (hw : w.WF) (hi : w.Inside) (hd : ¬ Translated E ch)
    (hc : (ch &&& E.A_ATTRIBUTES) &&& E.A_COLOR ≠ 0) :
    ∃ w1 cell, winsch E (fuel + 1) (some w) ch = .ret .OK (some w1) 1 ∧
      w1.cell? w._cury w._curx = some cell ∧
      cell &&& E.A_ATTRIBUTES =
        (ch &&& E.A_ATTRIBUTES) ||| (w._bkgd &&& (E.A_ATTRIBUTES ^^^ E.A_COLOR)) ∧
      cell &&& E.A_COLOR = (ch &&& E.A_ATTRIBUTES) &&& E.A_COLOR ∧
      (w._bkgd &&& (E.A_ATTRIBUTES ^^^ E.A_COLOR)) &&& E.A_COLOR = 0 := by
  have hcol : E.A_COLOR &&& E.A_ATTRIBUTES = E.A_COLOR := hE.2.2.1
  have hsub := composeAttr_sub E hE w (ch &&& E.A_ATTRIBUTES) (and_and_self _ _)
    (fun h => absurd h hc)
  have hsplit := cell_split E hE _ _ (resolveGlyph_text E w ch) hsub
  refine ⟨_, _, winsch_direct E fuel w ch hw hi hd, inserted_cell E w _ hw hi, ?_, ?_,
    noncolor_and_color _ _ _ hcol⟩
  · rw [hsplit.1, composeAttr_color E w _ hc]
  · have h1 : ∀ c : chtype, c &&& E.A_COLOR = (c &&& E.A_ATTRIBUTES) &&& E.A_COLOR := by
      intro c
      rw [Nat.and_assoc, Nat.and_comm E.A_ATTRIBUTES, hcol]
    rw [h1, hsplit.1, composeAttr_color E w _ hc, or_and_distrib,
      noncolor_and_color _ _ _ hcol, Nat.or_zero]

theorem winsch_direct_style_with_color_witness :
    curses.WF ∧ (blankWindow 1 4 0x05200020 0 1).WF ∧ (blankWindow 1 4 0x05200020 0 1).Inside ∧
    ¬ Translated curses 0x03400041 ∧
    (0x03400041 &&& curses.A_ATTRIBUTES) &&& curses.A_COLOR ≠ 0 ∧
    ∃ w1 cell, winsch curses 1 (some (blankWindow 1 4 0x05200020 0 1)) 0x03400041 =
        .ret .OK (some w1) 1 ∧
      w1.cell? 0 1 = some cell ∧
      cell &&& curses.A_ATTRIBUTES =
        (0x03400041 &&& curses.A_ATTRIBUTES) |||
          (0x05200020 &&& (curses.A_ATTRIBUTES ^^^ curses.A_COLOR)) ∧
      cell &&& curses.A_COLOR = (0x03400041 &&& curses.A_ATTRIBUTES) &&& curses.A_COLOR ∧
      (0x05200020 &&& (curses.A_ATTRIBUTES ^^^ curses.A_COLOR)) &&& curses.A_COLOR = 0 :=
  ⟨by decide, by decide, by decide, by decide, by decide,
    winsch_direct_style_with_color curses 0 (blankWindow 1 4 0x05200020 0 1) 0x03400041
      (by decide) (by decide) (by decide) (by decide) (by decide)⟩

/-- The statement of C7 fails: the window's current style is `0`, its
background carries an attribute bit (`0x00200000`), and `'A'` inserted without
attributes is stored with that bit, not with the style `0 | 0`. -/
theorem winsch_direct_style_without_color_counterexample :
    curses.WF ∧ (blankWindow 1 4 0x00200020 0 1).WF ∧ (blankWindow 1 4 0x00200020 0 1).Inside ∧
    (blankWindow 1 4 0x00200020 0 1).AttrsOK curses ∧ ¬ Translated curses 0x41 ∧
    (0x41 &&& curses.A_ATTRIBUTES) &&& curses.A_COLOR = 0 ∧
    winsch curses 1 (some (blankWindow 1 4 0x00200020 0 1)) 0x41 =
      .ret .OK (some { blankWindow 1 4 0x00200020 0 1 with
        _y := [[0x00200020, 0x00200041, 0x00200020, 0x00200020]]
        _firstch := [1]
        _lastch := [3] }) 1 ∧
    WINDOW.cell? { blankWindow 1 4 0x00200020 0 1 with
        _y := [[0x00200020, 0x00200041, 0x00200020, 0x00200020]]
        _firstch := [1]
        _lastch := [3] } 0 1 = some 0x00200041 ∧
    0x00200041 &&& curses.A_ATTRIBUTES ≠
      (0x41 &&& curses.A_ATTRIBUTES) ||| (blankWindow 1 4 0x00200020 0 1)._attrs := by
  decide

/-- C7 (amended): a direct insertion whose incoming style
`attr = ch & A_ATTRIBUTES` has no colour component, into a window whose current
style `S = _attrs` holds attribute bits only, stores a cell whose style is
`attr | S | (_bkgd & A_ATTRIBUTES)` when `attr | S` has no colour component and
`attr | S | (_bkgd & (A_ATTRIBUTES ^ A_COLOR))` when it has one; it is
`attr | S` when the background carries no attribute bit. -/
theorem winsch_direct_style_without_color (E : Env) (fuel : Nat) (w : WINDOW) (ch : chtype)
    (hE : E.WF) (hw : w.WF) (hi : w.Inside) (ha : w.AttrsOK E) (hd : ¬ Translated E ch)
    (hc : (ch &&& E.A_ATTRIBUTES) &&& E.A_COLOR = 0) :
    ∃ w1 cell, winsch E (fuel + 1) (some w) ch = .ret .OK (some w1) 1 ∧
      w1.cell? w._cury w._curx = some cell ∧
      cell &&& E.A_ATTRIBUTES =
        (if ((ch &&& E.A_ATTRIBUTES) ||| w._attrs) &&& E.A_COLOR = 0
         then (ch &&& E.A_ATTRIBUTES) ||| w._attrs ||| (w._bkgd &&& E.A_ATTRIBUTES)
         else (ch &&& E.A_ATTRIBUTES) ||| w._attrs |||
           (w._bkgd &&& (E.A_ATTRIBUTES ^^^ E.A_COLOR))) ∧
      (w._bkgd &&& E.A_ATTRIBUTES = 0 →
        cell &&& E.A_ATTRIBUTES = (ch &&& E.A_ATTRIBUTES) ||| w._attrs) := by
  have hcol : E.A_COLOR &&& E.A_ATTRIBUTES = E.A_COLOR := hE.2.2.1
  have hsub := composeAttr_sub E hE w (ch &&& E.A_ATTRIBUTES) (and_and_self _ _)
    (fun _ => ha)
  have hsplit := cell_split E hE _ _ (resolveGlyph_text E w ch) hsub
  have hst := hsplit.1.trans (composeAttr_nocolor E w _ hc)
  refine ⟨_, _, winsch_direct E fuel w ch hw hi hd, inserted_cell E w _ hw hi, hst, ?_⟩
  intro hb
  rw [hst]
  have hb2 : w._bkgd &&& (E.A_ATTRIBUTES ^^^ E.A_COLOR) = 0 := by
    rw [← noncolor_sub _ _ _ hcol]
    exact noncolor_zero _ _ _ hb
  rw [hb, hb2]
  simp

theorem winsch_direct_style_without_color_witness :
    curses.WF ∧ (blankWindow 1 4 0x00200020 0 1).WF ∧ (blankWindow 1 4 0x00200020 0 1).Inside ∧
    (blankWindow 1 4 0x00200020 0 1).AttrsOK curses ∧ ¬ Translated curses 0x00400041 ∧
    (0x00400041 &&& curses.A_ATTRIBUTES) &&& curses.A_COLOR = 0 ∧
    ∃ w1 cell, winsch curses 1 (some (blankWindow 1 4 0x00200020 0 1)) 0x00400041 =
        .ret .OK (some w1) 1 ∧
      w1.cell? 0 1 = some cell ∧ cell &&& curses.A_ATTRIBUTES = 0x00600000 :=
  ⟨by decide, by decide, by decide, by decide, by decide, by decide, by
    obtain ⟨w1, cell, h1, h2, h3, -⟩ :=
      winsch_direct_style_without_color curses 0 (blankWindow 1 4 0x00200020 0 1) 0x00400041
        (by decide) (by decide) (by decide) (by decide) (by decide) (by decide)
    exact ⟨w1, cell, h1, h2, h3⟩⟩

/-- C8: a direct insertion of a character whose glyph `ch & A_CHARTEXT` is not
a control code, by `winsch` or by `winsrawch`, whatever `raw_out` is, stores at
the cursor a cell whose style is the composed style of lines 175-187; its
glyph is the background glyph `_bkgd & A_CHARTEXT` when the incoming glyph is
the space, and the incoming glyph otherwise. -/
theorem winsch_direct_blank_glyph (E : Env) (fuel : Nat) (w : WINDOW) (ch : chtype)
    (hE : E.WF) (hw : w.WF) (hi : w.Inside) (ha : w.AttrsOK E)
    (hg : ¬ (ch &&& E.A_CHARTEXT < 0x20 ∨ ch &&& E.A_CHARTEXT = 0x7f)) :
    ∃ w1 cell, winsch E (fuel + 1) (some w) ch = .ret .OK (some w1) 1 ∧
      winsrawch E (fuel + 1) (some w) ch = .ret .OK (some w1) 1 ∧
      w1.cell? w._cury w._curx = some cell ∧
      cell &&& E.A_ATTRIBUTES = composeAttr E w (ch &&& E.A_ATTRIBUTES) ∧
      (ch &&& E.A_CHARTEXT = 0x20 → cell &&& E.A_CHARTEXT = w._bkgd &&& E.A_CHARTEXT) ∧
      (ch &&& E.A_CHARTEXT ≠ 0x20 → cell &&& E.A_CHARTEXT = ch &&& E.A_CHARTEXT) := by
  have hd : ¬ Translated E ch := fun h => hg h.2
  have hsub := composeAttr_sub E hE w (ch &&& E.A_ATTRIBUTES) (and_and_self _ _)
    (fun _ => ha)
  have hsplit := cell_split E hE _ _ (resolveGlyph_text E w ch) hsub
  have hraw : winsrawch E (fuel + 1) (some w) ch = winsch E (fuel + 1) (some w) ch := by
    unfold winsrawch
    rw [if_neg hg]
  refine ⟨_, _, winsch_direct E fuel w ch hw hi hd, ?_, inserted_cell E w _ hw hi,
    hsplit.1, ?_, ?_⟩
  · rw [hraw]
    exact winsch_direct E fuel w ch hw hi hd
  · intro h
    rw [hsplit.2, resolveGlyph, if_pos h]
  · intro h
    rw [hsplit.2, resolveGlyph, if_neg h]

theorem winsch_direct_blank_glyph_witness :
    curses.WF ∧ (blankWindow 1 4 0x0020002e 0 1).WF ∧ (blankWindow 1 4 0x0020002e 0 1).Inside ∧
    (blankWindow 1 4 0x0020002e 0 1).AttrsOK curses ∧
    ¬ (0x00400020 &&& curses.A_CHARTEXT < 0x20 ∨ 0x00400020 &&& curses.A_CHARTEXT = 0x7f) ∧
    ∃ w1 cell, winsch curses 1 (some (blankWindow 1 4 0x0020002e 0 1)) 0x00400020 =
        .ret .OK (some w1) 1 ∧
      winsrawch curses 1 (some (blankWindow 1 4 0x0020002e 0 1)) 0x00400020 =
        .ret .OK (some w1) 1 ∧
      w1.cell? 0 1 = some cell ∧ cell &&& curses.A_CHARTEXT = 0x2e :=
  ⟨by decide, by decide, by decide, by decide, by decide, by
    obtain ⟨w1, cell, h1, h2, h3, -, h5, -⟩ :=
      winsch_direct_blank_glyph curses 0 (blankWindow 1 4 0x0020002e 0 1) 0x00400020
        (by decide) (by decide) (by decide) (by decide) (by decide)
    exact ⟨w1, cell, h1, h2, h3, h5 (by decide)⟩⟩

/-- C9: after a direct insertion at column `x` of row `y` that returned `OK`,
`_lastch[y]` is `_maxx - 1`, and `_firstch[y]` is `x` if it was `_NO_CHANGE` or
greater than `x` and is unchanged otherwise. Hence: it is `x` in a row that
was unchanged; it is at most `x`; a marker that recorded a column is never
raised; and after an insertion into an unchanged row, an insertion with the
cursor moved to a smaller column `x2` of the same row leaves it at `x2`. -/
theorem winsch_direct_damage (E : Env) (fuel : Nat) (w : WINDOW) (ch : chtype)
    (hw : w.WF) (hi : w.Inside) (hd : ¬ Translated E ch) :
    ∃ w1 first first1, getI w._firstch w._cury = some first ∧
      winsch E (fuel + 1) (some w) ch = .ret .OK (some w1) 1 ∧
      getI w1._lastch w._cury = some (w._maxx - 1) ∧
      getI w1._firstch w._cury = some first1 ∧
      first1 = (if first = E._NO_CHANGE ∨ first > w._curx then w._curx else first) ∧
      (first = E._NO_CHANGE → first1 = w._curx) ∧
      first1 ≤ w._curx ∧
      (first ≠ E._NO_CHANGE → first1 ≤ first) ∧
      (∀ x2 ch2, 0 ≤ x2 → x2 < w._curx → first = E._NO_CHANGE → ¬ Translated E ch2 →
        ∃ w2, winsch E (fuel + 1) (some { w1 with _curx := x2 }) ch2 = .ret .OK (some w2) 1 ∧
          getI w2._firstch w._cury = some x2 ∧
          getI w2._lastch w._cury = some (w._maxx - 1)) := by
  obtain ⟨first, hf, hf1, hl1⟩ := inserted_markers E w
    (resolveGlyph E w (ch &&& E.A_CHARTEXT) ||| composeAttr E w (ch &&& E.A_ATTRIBUTES)) hw hi
  refine ⟨_, first, _, hf, winsch_direct E fuel w ch hw hi hd, hl1, hf1, rfl, ?_, ?_, ?_, ?_⟩
  · intro h
    rw [if_pos (Or.inl h)]
  · split
    · exact le_refl _
    · rename_i h
      push_neg at h
      exact h.2
  · intro h
    split
    · rename_i h2
      rcases h2 with h2 | h2
      · exact absurd h2 h
      · exact le_of_lt h2
    · exact le_refl _
  · intro x2 ch2 h0 hlt hno hd2
    have hw2 : WINDOW.WF { w.inserted E (resolveGlyph E w (ch &&& E.A_CHARTEXT) |||
        composeAttr E w (ch &&& E.A_ATTRIBUTES)) with _curx := x2 } :=
      inserted_WF E w _ hw hi
    have hi2 : WINDOW.Inside { w.inserted E (resolveGlyph E w (ch &&& E.A_CHARTEXT) |||
        composeAttr E w (ch &&& E.A_ATTRIBUTES)) with _curx := x2 } :=
      ⟨hi.1, hi.2.1, h0, lt_trans hlt hi.2.2.2⟩
    obtain ⟨f2, hg, hg1, hg2⟩ := inserted_markers E _
      (resolveGlyph E _ (ch2 &&& E.A_CHARTEXT) ||| composeAttr E _ (ch2 &&& E.A_ATTRIBUTES))
      hw2 hi2
    refine ⟨_, winsch_direct E fuel _ ch2 hw2 hi2 hd2, ?_, hg2⟩
    have hf2 : f2 = w._curx := by
      have h3 := hf1
      rw [if_pos (Or.inl hno)] at h3
      have h4 : some f2 = some w._curx := hg.symm.trans h3
      exact Option.some.inj h4
    rw [hf2] at hg1
    rw [if_pos (Or.inr hlt)] at hg1
    exact hg1

theorem winsch_direct_damage_witness :
    (blankWindow 2 10 0x20 1 4).WF ∧ (blankWindow 2 10 0x20 1 4).Inside ∧
    ¬ Translated curses 0x41 ∧
    ∃ w1, winsch curses 1 (some (blankWindow 2 10 0x20 1 4)) 0x41 = .ret .OK (some w1) 1 ∧
      getI w1._lastch 1 = some 9 ∧ getI w1._firstch 1 = some 4 ∧
      ∃ w2, winsch curses 1 (some { w1 with _curx := 2 }) 0x42 = .ret .OK (some w2) 1 ∧
        getI w2._firstch 1 = some 2 ∧ getI w2._lastch 1 = some 9 :=
  ⟨by decide, by decide, by decide, by
    obtain ⟨w1, first, first1, h0, h1, h2, h3, h4, h5, -, -, h8⟩ :=
      winsch_direct_damage curses 0 (blankWindow 2 10 0x20 1 4) 0x41
        (by decide) (by decide) (by decide)
    have hfirst : first = curses._NO_CHANGE := by
      have h9 : some first = some (-1) := h0.symm.trans (by decide)
      exact Option.some.inj h9
    refine ⟨w1, h1, h2, ?_, h8 2 0x42 (by decide) (by decide) hfirst (by decide)⟩
    exact h3.trans (congrArg some (h5 hfirst))⟩

/-- The statement of C4 fails in the last column: in a row of three cells
with the cursor at column `2`, the delete code leaves `'^'` at column `2`;
there is no column `3`, and the `'?'` of the first nested insertion has been
pushed off the row. -/
theorem winsch_caret_notation_counterexample :
    curses.WF ∧ (blankWindow 1 3 0x20 0 2).WF ∧ (blankWindow 1 3 0x20 0 2).Inside ∧
    Translated curses 0x7f ∧
    winsch curses 2 (some (blankWindow 1 3 0x20 0 2)) 0x7f =
      .ret .OK (some { blankWindow 1 3 0x20 0 2 with
        _y := [[0x20, 0x20, 0x5e]]
        _firstch := [2]
        _lastch := [2] }) 2 ∧
    WINDOW.cell? { blankWindow 1 3 0x20 0 2 with
        _y := [[0x20, 0x20, 0x5e]]
        _firstch := [2]
        _lastch := [2] } 0 (2 + 1) = none ∧
    (0x3f : chtype) ∉ [0x20, 0x20, 0x5e] := by
  decide

/-- C4 (amended): with translation enabled and the cursor on a cell `(y, x)`
that is not in the last column (`x + 1 < _maxx`), `winsch` with the delete code
`0x7f` returns `OK` and leaves `'^'` at column `x` and `'?'` at column `x + 1`;
with a control code `c < 0x20` other than tab and newline it leaves `'^'` at
column `x` and `c + 0x40` at column `x + 1`. Both cells are the glyph ORed with
the same style, the composition (lines 175-187) of the input's attributes with
the window; the cells left of `x` are untouched and the former cells from `x`
on are found two columns to the right. -/
theorem winsch_caret_notation (E : Env) (fuel : Nat) (w : WINDOW) (ch : chtype)
    (hE : E.WF) (hw : w.WF) (hi : w.Inside) (ht : Translated E ch)
    (h9 : ch &&& E.A_CHARTEXT ≠ 0x09) (h10 : ch &&& E.A_CHARTEXT ≠ 0x0a)
    (hroom : w._curx + 1 < w._maxx) :
    ∃ w2 pre row2, w._y[w._cury.toNat]? = some pre ∧
      winsch E (fuel + 2) (some w) ch = .ret .OK (some w2) 2 ∧
      w2.cell? w._cury w._curx = some (0x5e ||| composeAttr E w (ch &&& E.A_ATTRIBUTES)) ∧
      w2.cell? w._cury (w._curx + 1) =
        some ((if ch &&& E.A_CHARTEXT = 0x7f then 0x3f else (ch &&& E.A_CHARTEXT) + 0x40) |||
          composeAttr E w (ch &&& E.A_ATTRIBUTES)) ∧
      w2._y[w._cury.toNat]? = some row2 ∧ row2.length = w._maxx.toNat ∧
      (∀ i, i < w._curx.toNat → row2[i]? = pre[i]?) ∧
      (∀ i, w._curx.toNat ≤ i → i + 2 < w._maxx.toNat → row2[i + 2]? = pre[i]?) ∧
      (w.AttrsOK E →
        (0x5e ||| composeAttr E w (ch &&& E.A_ATTRIBUTES)) &&& E.A_CHARTEXT = 0x5e ∧
        ((if ch &&& E.A_CHARTEXT = 0x7f then 0x3f else (ch &&& E.A_CHARTEXT) + 0x40) |||
          composeAttr E w (ch &&& E.A_ATTRIBUTES)) &&& E.A_CHARTEXT =
          (if ch &&& E.A_CHARTEXT = 0x7f then 0x3f else (ch &&& E.A_CHARTEXT) + 0x40) ∧
        (0x5e ||| composeAttr E w (ch &&& E.A_ATTRIBUTES)) &&& E.A_ATTRIBUTES =
          composeAttr E w (ch &&& E.A_ATTRIBUTES) ∧
        ((if ch &&& E.A_CHARTEXT = 0x7f then 0x3f else (ch &&& E.A_CHARTEXT) + 0x40) |||
          composeAttr E w (ch &&& E.A_ATTRIBUTES)) &&& E.A_ATTRIBUTES =
          composeAttr E w (ch &&& E.A_ATTRIBUTES)) := by
  have hg := caret_companion (ch &&& E.A_CHARTEXT) ht.2
  have hcall := winsch_caret_call E hE fuel w ch hw hi ht h9 h10
  obtain ⟨pre, row2, hpre, -, hrow2, hlen2, hc2, hc1, hleft, hright⟩ :=
    inserted_twice_cells E w
      ((if ch &&& E.A_CHARTEXT = 0x7f then 0x3f else (ch &&& E.A_CHARTEXT) + 0x40) |||
          composeAttr E w (ch &&& E.A_ATTRIBUTES))
      (0x5e ||| composeAttr E w (ch &&& E.A_ATTRIBUTES)) hw hi
  refine ⟨_, pre, row2, hpre, hcall, hc2, hc1 hroom, hrow2, hlen2, hleft, hright, ?_⟩
  intro ha
  have hsub := composeAttr_sub E hE w (ch &&& E.A_ATTRIBUTES) (and_and_self _ _)
    (fun _ => ha)
  have s1 := cell_split E hE 0x5e _ (text_of_lt_128 E hE 0x5e (by norm_num)).1 hsub
  have s2 := cell_split E hE _ _ (text_of_lt_128 E hE _ hg.1).1 hsub
  exact ⟨s1.2, s2.2, s1.1, s2.1⟩

theorem winsch_caret_notation_witness :
    curses.WF ∧ (blankWindow 1 5 0x20 0 1).WF ∧ (blankWindow 1 5 0x20 0 1).Inside ∧
    Translated curses 0x00400001 ∧ 0x00400001 &&& curses.A_CHARTEXT ≠ 0x09 ∧
    0x00400001 &&& curses.A_CHARTEXT ≠ 0x0a ∧
    (blankWindow 1 5 0x20 0 1)._curx + 1 < (blankWindow 1 5 0x20 0 1)._maxx ∧
    ∃ w2, winsch curses 2 (some (blankWindow 1 5 0x20 0 1)) 0x00400001 =
        .ret .OK (some w2) 2 ∧
      w2.cell? 0 1 = some 0x0040005e ∧ w2.cell? 0 2 = some 0x00400041 :=
  ⟨by decide, by decide, by decide, by decide, by decide, by decide, by decide, by
    obtain ⟨w2, pre, row2, -, h1, h2, h3, -⟩ :=
      winsch_caret_notation curses 0 (blankWindow 1 5 0x20 0 1) 0x00400001
        (by decide) (by decide) (by decide) (by decide) (by decide) (by decide) (by decide)
    exact ⟨w2, h1, h2, h3⟩⟩

/-- C5: with tab width `T = TABSIZE > 0`, translation enabled and the cursor on
a cell `(y, c)`, `winsch` with a tab returns `OK` after exactly
`k = T - (c mod T) ≥ 1` direct insertions of the space carrying the tab's
attributes, each returning `OK` (`directTimes`; `PDC_sync` is called `k`
times). Row `y` becomes the original row with `k` copies of the composed blank
(background glyph ORed with the composed style) inserted at column `c` and cut
at the width of the row, and `_lastch[y]` is `_maxx - 1`. -/
theorem winsch_tab (E : Env) (fuel : Nat) (w : WINDOW) (ch : chtype)
    (hE : E.WF) (hT : 0 < E.TABSIZE) (hw : w.WF) (hi : w.Inside) (ht : Translated E ch)
    (h9 : ch &&& E.A_CHARTEXT = 0x09) :
    ∃ (w1 : WINDOW) (pre : List chtype) (k : Nat),
      w._y[w._cury.toNat]? = some pre ∧ pre.length = w._maxx.toNat ∧
      (k : Int) = E.TABSIZE - w._curx % E.TABSIZE ∧ 1 ≤ k ∧
      winsch E (fuel + 2) (some w) ch = .ret .OK (some w1) k ∧
      directTimes E (ch &&& E.A_ATTRIBUTES) 0x20 k w = some w1 ∧
      w1._y[w._cury.toNat]? = some ((pre.take w._curx.toNat ++
        List.replicate k ((w._bkgd &&& E.A_CHARTEXT) ||| composeAttr E w (ch &&& E.A_ATTRIBUTES)) ++
        pre.drop w._curx.toNat).take w._maxx.toNat) ∧
      getI w1._lastch w._cury = some (w._maxx - 1) := by
  obtain ⟨hcnt, hpos⟩ := tab_count w._curx E.TABSIZE hi.2.2.1 hT
  obtain ⟨pre, hpre, hlen, -⟩ := inserted_row E w 0 hw hi
  have hc : (w._bkgd &&& E.A_CHARTEXT) ||| composeAttr E w (ch &&& E.A_ATTRIBUTES) =
      resolveGlyph E w 0x20 ||| composeAttr E w (ch &&& E.A_ATTRIBUTES) := by
    rw [resolveGlyph, if_pos rfl]
  obtain ⟨hloop, hdir⟩ := tabLoop_inside E hE fuel ch _
    (E.TABSIZE - w._curx % E.TABSIZE).toNat w 0 hw hi hc
  obtain ⟨-, -, -, -, -, hrow⟩ := insertedTimes_props E w
    ((w._bkgd &&& E.A_CHARTEXT) ||| composeAttr E w (ch &&& E.A_ATTRIBUTES)) hw hi pre hpre
    (E.TABSIZE - w._curx % E.TABSIZE).toNat
  obtain ⟨j, hj⟩ : ∃ j, (E.TABSIZE - w._curx % E.TABSIZE).toNat = j + 1 :=
    ⟨(E.TABSIZE - w._curx % E.TABSIZE).toNat - 1, by omega⟩
  obtain ⟨hwj, hij, hyj, -, hNj, -⟩ := insertedTimes_props E w
    ((w._bkgd &&& E.A_CHARTEXT) ||| composeAttr E w (ch &&& E.A_ATTRIBUTES)) hw hi pre hpre j
  obtain ⟨-, -, -, hlast⟩ := inserted_markers E _
    ((w._bkgd &&& E.A_CHARTEXT) ||| composeAttr E w (ch &&& E.A_ATTRIBUTES)) hwj hij
  refine ⟨_, pre, (E.TABSIZE - w._curx % E.TABSIZE).toNat, hpre, hlen,
    Int.toNat_of_nonneg (by omega), by omega, ?_, hdir, ?_, ?_⟩
  · rw [winsch_translated E (fuel + 1) w ch (check_of_inside w hi) ht, if_pos h9,
      if_neg (ne_of_gt hT), hcnt, hloop, Nat.zero_add]
  · rw [hrow, hlen]
  · rw [hj, insertedTimes_succ, ← hyj, ← hNj]
    exact hlast

theorem winsch_tab_witness :
    curses.WF ∧ 0 < curses.TABSIZE ∧
    WINDOW.WF { blankWindow 1 10 0x2e 0 1 with
      _y := [[0x61, 0x62, 0x63, 0x64, 0x65, 0x66, 0x67, 0x68, 0x69, 0x6a]] } ∧
    WINDOW.Inside { blankWindow 1 10 0x2e 0 1 with
      _y := [[0x61, 0x62, 0x63, 0x64, 0x65, 0x66, 0x67, 0x68, 0x69, 0x6a]] } ∧
    Translated curses 0x09 ∧ 0x09 &&& curses.A_CHARTEXT = 0x09 ∧
    ∃ w1, winsch curses 2 (some { blankWindow 1 10 0x2e 0 1 with
          _y := [[0x61, 0x62, 0x63, 0x64, 0x65, 0x66, 0x67, 0x68, 0x69, 0x6a]] }) 0x09 =
        .ret .OK (some w1) 7 ∧
      w1._y[0]? = some [0x61, 0x2e, 0x2e, 0x2e, 0x2e, 0x2e, 0x2e, 0x2e, 0x62, 0x63] ∧
      getI w1._lastch 0 = some 9 :=
  ⟨by decide, by decide, by decide, by decide, by decide, by decide, by
    obtain ⟨w1, pre, k, hpre, -, hk, -, hcall, -, hrow, hlast⟩ :=
      winsch_tab curses 0 { blankWindow 1 10 0x2e 0 1 with
          _y := [[0x61, 0x62, 0x63, 0x64, 0x65, 0x66, 0x67, 0x68, 0x69, 0x6a]] } 0x09
        (by decide) (by decide) (by decide) (by decide) (by decide) (by decide)
    have hk7 : k = 7 := by
      have h1 : (k : Int) = 7 := hk.trans (by decide)
      omega
    have hp : pre = [0x61, 0x62, 0x63, 0x64, 0x65, 0x66, 0x67, 0x68, 0x69, 0x6a] := by
      have h2 : some [0x61, 0x62, 0x63, 0x64, 0x65, 0x66, 0x67, 0x68, 0x69, 0x6a] = some pre :=
        hpre
      exact (Option.some.inj h2).symm
    subst hk7
    subst hp
    exact ⟨w1, hcall, hrow.trans (by decide), hlast⟩⟩

/-- C10: a cursor that passes the bounds check does not make `winsch` return
`OK`. The window has one row of three cells and its cursor is at column
`3 = _maxx`: the window is not null, the check of line 122 passes, and for a
printable character, for the delete code, for a control code and for a tab
the (nested) insertion moves `-1` cells and stores outside the row, which is
undefined behaviour; `winsch` returns neither `OK` nor `ERR`. -/
theorem winsch_at_maxx_does_not_return :
    (blankWindow 1 3 0x20 0 3).WF ∧
    ¬ ((blankWindow 1 3 0x20 0 3)._cury > (blankWindow 1 3 0x20 0 3)._maxy ∨
       (blankWindow 1 3 0x20 0 3)._curx > (blankWindow 1 3 0x20 0 3)._maxx ∨
       (blankWindow 1 3 0x20 0 3)._cury < 0 ∨ (blankWindow 1 3 0x20 0 3)._curx < 0) ∧
    ¬ (blankWindow 1 3 0x20 0 3).Inside ∧
    winsch curses 2 (some (blankWindow 1 3 0x20 0 3)) 0x42 = .fault ∧
    winsch curses 2 (some (blankWindow 1 3 0x20 0 3)) 0x7f = .fault ∧
    winsch curses 2 (some (blankWindow 1 3 0x20 0 3)) 0x01 = .fault ∧
    winsch curses 2 (some (blankWindow 1 3 0x20 0 3)) 0x09 = .fault ∧
    winsch curses 5 (some (blankWindow 1 3 0x20 0 3)) 0x7f = .fault := by
  decide

/-- C17: the colour field of the cell stored by a direct insertion is exactly
one of three candidates: the incoming colour if it is not zero; otherwise the
colour of the window's current style `_attrs & A_COLOR` if that is not zero;
otherwise the colour of the background `_bkgd & A_COLOR` (zero when all three
are). No two colours are ever ORed together. -/
theorem winsch_direct_color_precedence (E : Env) (fuel : Nat) (w : WINDOW) (ch : chtype)
    (hE : E.WF) (hw : w.WF) (hi : w.Inside) (hd : ¬ Translated E ch) :
    ∃ w1 cell, winsch E (fuel + 1) (some w) ch = .ret .OK (some w1) 1 ∧
      w1.cell? w._cury w._curx = some cell ∧
      cell &&& E.A_COLOR =
        (if (ch &&& E.A_ATTRIBUTES) &&& E.A_COLOR ≠ 0 then (ch &&& E.A_ATTRIBUTES) &&& E.A_COLOR
         else if w._attrs &&& E.A_COLOR ≠ 0 then w._attrs &&& E.A_COLOR
         else w._bkgd &&& E.A_COLOR) ∧
      (cell &&& E.A_COLOR = (ch &&& E.A_ATTRIBUTES) &&& E.A_COLOR ∨
       cell &&& E.A_COLOR = w._attrs &&& E.A_COLOR ∨
       cell &&& E.A_COLOR = w._bkgd &&& E.A_COLOR) := by
  have hcf := (text_and_color E hE _ (composeAttr E w (ch &&& E.A_ATTRIBUTES))
    (resolveGlyph_text E w ch)).trans (composeAttr_color_field E hE w (ch &&& E.A_ATTRIBUTES))
  refine ⟨_, _, winsch_direct E fuel w ch hw hi hd, inserted_cell E w _ hw hi, hcf, ?_⟩
  rw [hcf]
  split
  · exact Or.inl rfl
  · split
    · exact Or.inr (Or.inl rfl)
    · exact Or.inr (Or.inr rfl)

theorem winsch_direct_color_precedence_witness :
    curses.WF ∧
    WINDOW.WF { blankWindow 1 4 0x05000020 0 1 with _attrs := 0x03000000 } ∧
    WINDOW.Inside { blankWindow 1 4 0x05000020 0 1 with _attrs := 0x03000000 } ∧
    ¬ Translated curses 0x00400041 ∧
    ∃ w1 cell,
      winsch curses 1 (some { blankWindow 1 4 0x05000020 0 1 with _attrs := 0x03000000 })
        0x00400041 = .ret .OK (some w1) 1 ∧
      w1.cell? 0 1 = some cell ∧ cell &&& curses.A_COLOR = 0x03000000 :=
  ⟨by decide, by decide, by decide, by decide, by
    obtain ⟨w1, cell, h1, h2, h3, -⟩ :=
      winsch_direct_color_precedence curses 0
        { blankWindow 1 4 0x05000020 0 1 with _attrs := 0x03000000 } 0x00400041
        (by decide) (by decide) (by decide) (by decide)
    exact ⟨w1, cell, h1, h2, h3.trans (by decide)⟩⟩

/-- C18: with translation enabled and the cursor on the last column
(`x = _maxx - 1`) of a row, `winsch` with the delete code or a control code
other than tab and newline returns `OK` and leaves the row as its cells left
of `x` followed by the caret cell: column `x` holds `'^'` with the composed
style, the companion glyph of the first nested insertion is gone, the cells
left of `x` and every other row are unchanged. -/
theorem winsch_caret_last_column (E : Env) (fuel : Nat) (w : WINDOW) (ch : chtype)
    (hE : E.WF) (hw : w.WF) (hi : w.Inside) (ht : Translated E ch)
    (h9 : ch &&& E.A_CHARTEXT ≠ 0x09) (h10 : ch &&& E.A_CHARTEXT ≠ 0x0a)
    (hlast : w._curx = w._maxx - 1) :
    ∃ w2 pre, w._y[w._cury.toNat]? = some pre ∧ pre.length = w._maxx.toNat ∧
      winsch E (fuel + 2) (some w) ch = .ret .OK (some w2) 2 ∧
      w2._y[w._cury.toNat]? =
        some (pre.take w._curx.toNat ++ [0x5e ||| composeAttr E w (ch &&& E.A_ATTRIBUTES)]) ∧
      w2.cell? w._cury w._curx = some (0x5e ||| composeAttr E w (ch &&& E.A_ATTRIBUTES)) ∧
      (∀ i, i < w._curx.toNat →
        (pre.take w._curx.toNat ++ [0x5e ||| composeAttr E w (ch &&& E.A_ATTRIBUTES)])[i]? =
          pre[i]?) ∧
      (∀ j, j ≠ w._cury.toNat → w2._y[j]? = w._y[j]?) ∧
      (w.AttrsOK E →
        (0x5e ||| composeAttr E w (ch &&& E.A_ATTRIBUTES)) &&& E.A_CHARTEXT = 0x5e) := by
  have hcall := winsch_caret_call E hE fuel w ch hw hi ht h9 h10
  obtain ⟨pre, row2, hpre, hlen, hrow2, -, hc2, -, -, -⟩ :=
    inserted_twice_cells E w
      ((if ch &&& E.A_CHARTEXT = 0x7f then 0x3f else (ch &&& E.A_CHARTEXT) + 0x40) |||
          composeAttr E w (ch &&& E.A_ATTRIBUTES))
      (0x5e ||| composeAttr E w (ch &&& E.A_ATTRIBUTES)) hw hi
  have hw1 := inserted_WF E w
    ((if ch &&& E.A_CHARTEXT = 0x7f then 0x3f else (ch &&& E.A_CHARTEXT) + 0x40) |||
      composeAttr E w (ch &&& E.A_ATTRIBUTES)) hw hi
  have hi1 := inserted_Inside E w
    ((if ch &&& E.A_CHARTEXT = 0x7f then 0x3f else (ch &&& E.A_CHARTEXT) + 0x40) |||
      composeAttr E w (ch &&& E.A_ATTRIBUTES)) hi
  obtain ⟨p0, hp0, -, hr1⟩ := inserted_row E w
    ((if ch &&& E.A_CHARTEXT = 0x7f then 0x3f else (ch &&& E.A_CHARTEXT) + 0x40) |||
      composeAttr E w (ch &&& E.A_ATTRIBUTES)) hw hi
  obtain ⟨p1, hp1, -, hr2⟩ := inserted_row E _
    (0x5e ||| composeAttr E w (ch &&& E.A_ATTRIBUTES)) hw1 hi1
  simp only [inserted_cury, inserted_curx] at hp1 hr2
  have e0 : p0 = pre := Option.some.inj (hp0.symm.trans hpre)
  have e1 : p1 = insertedRow pre w._curx.toNat
      ((if ch &&& E.A_CHARTEXT = 0x7f then 0x3f else (ch &&& E.A_CHARTEXT) + 0x40) |||
        composeAttr E w (ch &&& E.A_ATTRIBUTES)) := by
    rw [← e0]
    exact Option.some.inj (hp1.symm.trans hr1)
  have hxl : w._curx.toNat + 1 = pre.length := by
    obtain ⟨-, -, h3, -⟩ := hi
    omega
  have hfr := (inserted_frame E w _ hw hi).trans (inserted_frame E _
    (0x5e ||| composeAttr E w (ch &&& E.A_ATTRIBUTES)) hw1 hi1)
  refine ⟨_, pre, hpre, hlen, hcall, ?_, hc2, ?_, ?_, ?_⟩
  · rw [hr2, e1, insertedRow_last_twice pre _ _ _ hxl]
  · intro i h
    rw [List.getElem?_append_left (by rw [List.length_take]; omega),
      List.getElem?_take_of_lt h]
  · intro j hj
    exact (hfr.2.2.2.2.2.2 j hj).1
  · intro ha
    have hsub := composeAttr_sub E hE w (ch &&& E.A_ATTRIBUTES) (and_and_self _ _)
      (fun _ => ha)
    exact (cell_split E hE 0x5e _ (text_of_lt_128 E hE 0x5e (by norm_num)).1 hsub).2

theorem winsch_caret_last_column_witness :
    curses.WF ∧
    WINDOW.WF { blankWindow 1 3 0x20 0 2 with _y := [[0x61, 0x62, 0x63]] } ∧
    WINDOW.Inside { blankWindow 1 3 0x20 0 2 with _y := [[0x61, 0x62, 0x63]] } ∧
    Translated curses 0x7f ∧ 0x7f &&& curses.A_CHARTEXT ≠ 0x09 ∧
    0x7f &&& curses.A_CHARTEXT ≠ 0x0a ∧ (2 : Int) = 3 - 1 ∧
    ∃ w2, winsch curses 2 (some { blankWindow 1 3 0x20 0 2 with _y := [[0x61, 0x62, 0x63]] })
        0x7f = .ret .OK (some w2) 2 ∧
      w2._y[0]? = some [0x61, 0x62, 0x5e] :=
  ⟨by decide, by decide, by decide, by decide, by decide, by decide, by decide, by
    obtain ⟨w2, pre, hpre, -, hcall, hrow, -⟩ :=
      winsch_caret_last_column curses 0
        { blankWindow 1 3 0x20 0 2 with _y := [[0x61, 0x62, 0x63]] } 0x7f
        (by decide) (by decide) (by decide) (by decide) (by decide) (by decide) (by decide)
    have hp : pre = [0x61, 0x62, 0x63] := by
      have h2 : some [0x61, 0x62, 0x63] = some pre := hpre
      exact (Option.some.inj h2).symm
    subst hp
    exact ⟨w2, hcall, hrow.trans (by decide)⟩⟩

/-- C11: for a cursor on a cell and a character whose glyph is a control code
(`< 0x20`) or the delete code, `winsrawch` performs exactly one direct
insertion, whatever `raw_out` is: it returns `OK` after one `PDC_sync`, row `y`
is shifted right by one cell from the cursor column, and the cell stored at
the cursor has the original control code as its glyph and has the
`A_ALTCHARSET` bits set. No `^X` notation, tab expansion or `wclrtoeol` takes
place. -/
theorem winsrawch_control_literal (E : Env) (fuel : Nat) (w : WINDOW) (ch : chtype)
    (hE : E.WF) (halt : E.A_ALTCHARSET ≠ 0) (hw : w.WF) (hi : w.Inside) (ha : w.AttrsOK E)
    (hg : ch &&& E.A_CHARTEXT < 0x20 ∨ ch &&& E.A_CHARTEXT = 0x7f) :
    ∃ w1 pre cell, w._y[w._cury.toNat]? = some pre ∧
      winsrawch E (fuel + 1) (some w) ch = .ret .OK (some w1) 1 ∧
      w1 = w.inserted E cell ∧
      w1._y[w._cury.toNat]? = some (pre.take w._curx.toNat ++ [cell] ++
        (pre.drop w._curx.toNat).take (w._maxx.toNat - 1 - w._curx.toNat)) ∧
      w1.cell? w._cury w._curx = some cell ∧
      cell = (ch &&& E.A_CHARTEXT) |||
        composeAttr E w ((ch ||| E.A_ALTCHARSET) &&& E.A_ATTRIBUTES) ∧
      cell &&& E.A_CHARTEXT = ch &&& E.A_CHARTEXT ∧
      cell &&& E.A_ALTCHARSET = E.A_ALTCHARSET := by
  obtain ⟨hnt, htext, hbits⟩ := marked_not_translated E hE halt ch
  have hraw : winsrawch E (fuel + 1) (some w) ch =
      winsch E (fuel + 1) (some w) (ch ||| E.A_ALTCHARSET) := by
    unfold winsrawch
    rw [if_pos hg]
  have hres : resolveGlyph E w (ch &&& E.A_CHARTEXT) = ch &&& E.A_CHARTEXT := by
    unfold resolveGlyph
    rw [if_neg]
    revert hg
    generalize ch &&& E.A_CHARTEXT = c
    intro hg
    unfold chtype at *
    omega
  have hcall := winsch_direct E fuel w (ch ||| E.A_ALTCHARSET) hw hi hnt
  rw [htext, hres] at hcall
  obtain ⟨pre, hpre, hlen, hrow⟩ := inserted_row E w
    ((ch &&& E.A_CHARTEXT) ||| composeAttr E w ((ch ||| E.A_ALTCHARSET) &&& E.A_ATTRIBUTES))
    hw hi
  have hsub := composeAttr_sub E hE w ((ch ||| E.A_ALTCHARSET) &&& E.A_ATTRIBUTES)
    (and_and_self _ _) (fun _ => ha)
  have hsplit := cell_split E hE (ch &&& E.A_CHARTEXT) _ (and_and_self _ _) hsub
  have hsup := composeAttr_sup E w ((ch ||| E.A_ALTCHARSET) &&& E.A_ATTRIBUTES)
  have hcb : composeAttr E w ((ch ||| E.A_ALTCHARSET) &&& E.A_ATTRIBUTES) &&&
      E.A_ALTCHARSET = E.A_ALTCHARSET := by
    have h1 : composeAttr E w ((ch ||| E.A_ALTCHARSET) &&& E.A_ATTRIBUTES) &&&
        E.A_ALTCHARSET =
        (composeAttr E w ((ch ||| E.A_ALTCHARSET) &&& E.A_ATTRIBUTES) &&&
          ((ch ||| E.A_ALTCHARSET) &&& E.A_ATTRIBUTES)) &&& E.A_ALTCHARSET := by
      rw [Nat.and_assoc, hbits]
    rw [h1, hsup, hbits]
  refine ⟨_, pre, _, hpre, hraw.trans hcall, rfl, ?_, inserted_cell E w _ hw hi, rfl,
    hsplit.2, or_keeps_bits _ _ _ hcb⟩
  rw [hrow, insertedRow, hlen]

theorem winsrawch_control_literal_witness :
    curses.WF ∧ curses.A_ALTCHARSET ≠ 0 ∧
    WINDOW.WF { blankWindow 1 4 0x20 0 1 with _y := [[0x61, 0x62, 0x63, 0x64]] } ∧
    WINDOW.Inside { blankWindow 1 4 0x20 0 1 with _y := [[0x61, 0x62, 0x63, 0x64]] } ∧
    WINDOW.AttrsOK curses { blankWindow 1 4 0x20 0 1 with _y := [[0x61, 0x62, 0x63, 0x64]] } ∧
    (0x09 &&& curses.A_CHARTEXT < 0x20 ∨ 0x09 &&& curses.A_CHARTEXT = 0x7f) ∧
    ∃ w1, winsrawch curses 1
        (some { blankWindow 1 4 0x20 0 1 with _y := [[0x61, 0x62, 0x63, 0x64]] }) 0x09 =
        .ret .OK (some w1) 1 ∧
      w1._y[0]? = some [0x61, 0x00010009, 0x62, 0x63] :=
  ⟨by decide, by decide, by decide, by decide, by decide, by decide, by
    obtain ⟨w1, pre, cell, hpre, hcall, -, hrow, -, hcell, -⟩ :=
      winsrawch_control_literal curses 0
        { blankWindow 1 4 0x20 0 1 with _y := [[0x61, 0x62, 0x63, 0x64]] } 0x09
        (by decide) (by decide) (by decide) (by decide) (by decide) (by decide)
    have hp : pre = [0x61, 0x62, 0x63, 0x64] := by
      have h2 : some [0x61, 0x62, 0x63, 0x64] = some pre := hpre
      exact (Option.some.inj h2).symm
    subst hp
    subst hcell
    exact ⟨w1, hcall, hrow.trans (by decide)⟩⟩

/-- C19: a direct insertion by `winsch` that returns `OK` changes only the
cells and the two damage markers of the cursor row `y`: the current style
`_attrs`, the background `_bkgd`, the dimensions `_maxy` and `_maxx`, and the
cells and damage markers of every other row are as before (for any window);
and on a well-formed window with the cursor on a cell it does return `OK`. -/
theorem winsch_direct_frame (E : Env) (fuel : Nat) (w : WINDOW) (ch : chtype)
    (hd : ¬ Translated E ch) :
    (∀ w1 n, winsch E (fuel + 1) (some w) ch = .ret .OK (some w1) n →
      w1._attrs = w._attrs ∧ w1._bkgd = w._bkgd ∧ w1._maxy = w._maxy ∧ w1._maxx = w._maxx ∧
      ∀ j, j ≠ w._cury.toNat →
        w1._y[j]? = w._y[j]? ∧ w1._firstch[j]? = w._firstch[j]? ∧
        w1._lastch[j]? = w._lastch[j]?) ∧
    (w.WF → w.Inside → ∃ w1, winsch E (fuel + 1) (some w) ch = .ret .OK (some w1) 1) := by
  constructor
  · intro w1 n h
    rcases winsch_direct_cases E (fuel + 1) w ch hd _ _ _ h with ⟨h1, -, -⟩ | ⟨-, -, v, hv, hs⟩
    · exact absurd h1 (by decide)
    · have hv1 : w1 = v := Option.some.inj hv
      subst hv1
      obtain ⟨-, -, a3, a4, a5, a6, a7⟩ := shiftInsert_frame E w w1 _ _ _ hs
      exact ⟨a5, a6, a3, a4, a7⟩
  · intro hw hi
    exact ⟨_, winsch_direct E fuel w ch hw hi hd⟩

theorem winsch_direct_frame_witness :
    ¬ Translated curses 0x41 ∧
    ∃ w1, winsch curses 1 (some { blankWindow 2 3 0x20 1 1 with
          _y := [[0x61, 0x62, 0x63], [0x64, 0x65, 0x66]] }) 0x41 = .ret .OK (some w1) 1 ∧
      w1._attrs = 0 ∧ w1._bkgd = 0x20 ∧ w1._maxy = 2 ∧ w1._maxx = 3 ∧
      w1._y[0]? = some [0x61, 0x62, 0x63] ∧ w1._firstch[0]? = some (-1) ∧
      w1._lastch[0]? = some (-1) :=
  ⟨by decide, by
    obtain ⟨h1, h2⟩ := winsch_direct_frame curses 0 { blankWindow 2 3 0x20 1 1 with
          _y := [[0x61, 0x62, 0x63], [0x64, 0x65, 0x66]] } 0x41 (by decide)
    obtain ⟨w1, hcall⟩ := h2 (by decide) (by decide)
    obtain ⟨a1, a2, a3, a4, a5⟩ := h1 w1 1 hcall
    exact ⟨w1, hcall, a1, a2, a3, a4, (a5 0 (by decide)).1, (a5 0 (by decide)).2.1,
      (a5 0 (by decide)).2.2⟩⟩

/-- C20: if the cursor is on a cell (`0 ≤ x < _maxx`) and the markers of row `y`
are either unchanged (`_firstch[y] = _NO_CHANGE`) or satisfy
`0 ≤ _firstch[y] ≤ _lastch[y] < _maxx`, then a direct insertion returns `OK`
and leaves `0 ≤ _firstch[y] ≤ x ≤ _lastch[y] = _maxx - 1`. -/
theorem winsch_direct_markers_wellformed (E : Env) (fuel : Nat) (w : WINDOW) (ch : chtype)
    (hw : w.WF) (hi : w.Inside) (hd : ¬ Translated E ch) (first last : Int)
    (hf : getI w._firstch w._cury = some first) (_hl : getI w._lastch w._cury = some last)
    (hm : first = E._NO_CHANGE ∨ (0 ≤ first ∧ first ≤ last ∧ last < w._maxx)) :
    ∃ w1 first1 last1, winsch E (fuel + 1) (some w) ch = .ret .OK (some w1) 1 ∧
      getI w1._firstch w._cury = some first1 ∧ getI w1._lastch w._cury = some last1 ∧
      0 ≤ first1 ∧ first1 ≤ w._curx ∧ w._curx ≤ last1 ∧ last1 = w._maxx - 1 := by
  obtain ⟨f0, hf0, hf1, hl1⟩ := inserted_markers E w
    (resolveGlyph E w (ch &&& E.A_CHARTEXT) ||| composeAttr E w (ch &&& E.A_ATTRIBUTES)) hw hi
  have hff : f0 = first := Option.some.inj (hf0.symm.trans hf)
  subst hff
  have hx0 : 0 ≤ w._curx := hi.2.2.1
  have hxN : w._curx < w._maxx := hi.2.2.2
  refine ⟨_, _, _, winsch_direct E fuel w ch hw hi hd, hf1, hl1, ?_, ?_, ?_, rfl⟩
  · split
    · exact hx0
    · rename_i h
      push_neg at h
      rcases hm with hm | hm
      · exact absurd hm h.1
      · exact hm.1
  · split
    · exact le_refl _
    · rename_i h
      push_neg at h
      exact h.2
  · omega

theorem winsch_direct_markers_wellformed_witness :
    WINDOW.WF { blankWindow 1 10 0x20 0 3 with _firstch := [5], _lastch := [7] } ∧
    WINDOW.Inside { blankWindow 1 10 0x20 0 3 with _firstch := [5], _lastch := [7] } ∧
    ¬ Translated curses 0x41 ∧
    getI [(5 : Int)] 0 = some 5 ∧ getI [(7 : Int)] 0 = some 7 ∧
    ((5 : Int) = curses._NO_CHANGE ∨ ((0 : Int) ≤ 5 ∧ (5 : Int) ≤ 7 ∧ (7 : Int) < 10)) ∧
    ∃ w1 first1 last1,
      winsch curses 1 (some { blankWindow 1 10 0x20 0 3 with _firstch := [5], _lastch := [7] })
        0x41 = .ret .OK (some w1) 1 ∧
      getI w1._firstch 0 = some first1 ∧ getI w1._lastch 0 = some last1 ∧
      0 ≤ first1 ∧ first1 ≤ 3 ∧ 3 ≤ last1 ∧ last1 = 10 - 1 :=
  ⟨by decide, by decide, by decide, by decide, by decide, by decide,
    winsch_direct_markers_wellformed curses 0
      { blankWindow 1 10 0x20 0 3 with _firstch := [5], _lastch := [7] } 0x41
      (by decide) (by decide) (by decide) 5 7 (by decide) (by decide) (by decide)⟩

/-- C15: `winsch` terminates with recursion depth at most 2. With two stack
frames it never runs out of them, whatever the window and the character, and
more frames change nothing. Every character passed to a nested call is the
incoming attributes ORed with `' '`, `'?'`, `'^'` or `c + 0x40` for a `c < 0x20`;
such a glyph is neither below `0x20` nor `0x7f`, the character is not
translated, and the nested call takes the direct path with one frame. -/
theorem winsch_recursion_depth (E : Env) (hE : E.WF) (win : Option WINDOW) (ch : chtype) :
    winsch E 2 win ch ≠ .nofuel ∧
    (∀ fuel, winsch E (fuel + 2) win ch = winsch E 2 win ch) ∧
    (∀ g : chtype, (g = 0x20 ∨ g = 0x3f ∨ g = 0x5e ∨ ∃ c : chtype, c < 0x20 ∧ g = c + 0x40) →
      ¬ (g < 0x20 ∨ g = 0x7f) ∧
      ¬ Translated E ((ch &&& E.A_ATTRIBUTES) ||| g) ∧
      ∀ (fuel : Nat) (v : Option WINDOW),
        winsch E (fuel + 1) v ((ch &&& E.A_ATTRIBUTES) ||| g) =
          winsch E 1 v ((ch &&& E.A_ATTRIBUTES) ||| g) ∧
        winsch E 1 v ((ch &&& E.A_ATTRIBUTES) ||| g) ≠ .nofuel) := by
  obtain ⟨h1, h2⟩ := winsch_two_frames E hE win ch
  refine ⟨h1, h2, ?_⟩
  intro g hg
  have hb : g < 0x80 ∧ ¬ (g < 0x20 ∨ g = 0x7f) := by
    unfold chtype at *
    rcases hg with h | h | h | ⟨c, hc, h⟩ <;> omega
  refine ⟨hb.2, (winsch_nested_fuel E hE ch g hb.1 hb.2 0 none).1, ?_⟩
  intro fuel v
  exact (winsch_nested_fuel E hE ch g hb.1 hb.2 fuel v).2

theorem winsch_recursion_depth_witness :
    curses.WF ∧
    winsch curses 2 (some (blankWindow 1 5 0x20 0 1)) 0x7f ≠ .nofuel ∧
    winsch curses (7 + 2) (some (blankWindow 1 5 0x20 0 1)) 0x7f =
      winsch curses 2 (some (blankWindow 1 5 0x20 0 1)) 0x7f ∧
    ¬ Translated curses ((0x7f &&& curses.A_ATTRIBUTES) ||| 0x3f) :=
  ⟨by decide,
    (winsch_recursion_depth curses (by decide) (some (blankWindow 1 5 0x20 0 1)) 0x7f).1,
    (winsch_recursion_depth curses (by decide) (some (blankWindow 1 5 0x20 0 1)) 0x7f).2.1 7,
    ((winsch_recursion_depth curses (by decide) (some (blankWindow 1 5 0x20 0 1)) 0x7f).2.2
      0x3f (Or.inr (Or.inl rfl))).2.1⟩

/-- The statement of C16 fails: on a blank row of ten cells with the cursor at
column `1`, the call for the delete code returns `OK` after two calls of
`PDC_sync` (one by each nested insertion), and the call for a tab after
seven. -/
theorem winsch_sync_count_counterexample :
    curses.WF ∧ (blankWindow 1 10 0x20 0 1).WF ∧ (blankWindow 1 10 0x20 0 1).Inside ∧
    winsch curses 2 (some (blankWindow 1 10 0x20 0 1)) 0x7f =
      .ret .OK (some { blankWindow 1 10 0x20 0 1 with
        _y := [[0x20, 0x5e, 0x3f, 0x20, 0x20, 0x20, 0x20, 0x20, 0x20, 0x20]]
        _firstch := [1]
        _lastch := [9] }) 2 ∧
    winsch curses 2 (some (blankWindow 1 10 0x20 0 1)) 0x09 =
      .ret .OK (some { blankWindow 1 10 0x20 0 1 with
        _firstch := [1]
        _lastch := [9] }) 7 ∧
    (2 : Nat) ≠ 1 ∧ (7 : Nat) ≠ 1 := by
  decide

/-- C16 (amended): a call of `winsch` with the cursor on a cell returns `OK`
after at least one call of `PDC_sync`: exactly one for a character that is
inserted directly and for a translated newline, two for the delete code and
for a control code other than tab and newline (one by each nested insertion),
and `TABSIZE - (x mod TABSIZE)` for a tab (one by each inserted blank). Calls
that `wclrtoeol` makes on its own are not counted. -/
theorem winsch_sync_count (E : Env) (fuel : Nat) (w : WINDOW) (ch : chtype)
    (hE : E.WF) (hT : 0 < E.TABSIZE) (hw : w.WF) (hi : w.Inside) :
    ∃ (w1 : WINDOW) (n : Nat), winsch E (fuel + 2) (some w) ch = .ret .OK (some w1) n ∧
      1 ≤ n ∧
      (¬ Translated E ch → n = 1) ∧
      (Translated E ch → ch &&& E.A_CHARTEXT = 0x0a → n = 1) ∧
      (Translated E ch → ch &&& E.A_CHARTEXT = 0x09 →
        (n : Int) = E.TABSIZE - w._curx % E.TABSIZE) ∧
      (Translated E ch → ch &&& E.A_CHARTEXT ≠ 0x09 → ch &&& E.A_CHARTEXT ≠ 0x0a → n = 2) := by
  by_cases ht : Translated E ch
  · by_cases h9 : ch &&& E.A_CHARTEXT = 0x09
    · obtain ⟨hcnt, hpos⟩ := tab_count w._curx E.TABSIZE hi.2.2.1 hT
      obtain ⟨hloop, -⟩ := tabLoop_inside E hE fuel ch _
        (E.TABSIZE - w._curx % E.TABSIZE).toNat w 0 hw hi rfl
      have h := winsch_translated E (fuel + 1) w ch (check_of_inside w hi) ht
      rw [if_pos h9, if_neg (ne_of_gt hT), hcnt, hloop, Nat.zero_add] at h
      refine ⟨_, _, h, by omega, fun hn => absurd ht hn, ?_, ?_, fun _ hn => absurd h9 hn⟩
      · intro _ h10
        rw [h9] at h10
        exact absurd h10 (by decide)
      · intro _ _
        exact Int.toNat_of_nonneg (by omega)
    · by_cases h10 : ch &&& E.A_CHARTEXT = 0x0a
      · have h := winsch_translated E (fuel + 1) w ch (check_of_inside w hi) ht
        rw [if_neg h9, if_pos h10] at h
        exact ⟨_, _, h, le_refl _, fun _ => rfl, fun _ _ => rfl, fun _ hn => absurd hn h9,
          fun _ _ hn => absurd h10 hn⟩
      · exact ⟨_, _, winsch_caret_call E hE fuel w ch hw hi ht h9 h10, by decide,
          fun hn => absurd ht hn, fun _ hn => absurd hn h10, fun _ hn => absurd hn h9,
          fun _ _ _ => rfl⟩
  · exact ⟨_, _, winsch_direct E (fuel + 1) w ch hw hi ht, le_refl _, fun _ => rfl,
      fun h => absurd h ht, fun h => absurd h ht, fun h => absurd h ht⟩

theorem winsch_sync_count_witness :
    curses.WF ∧ 0 < curses.TABSIZE ∧ (blankWindow 1 10 0x20 0 1).WF ∧
    (blankWindow 1 10 0x20 0 1).Inside ∧ Translated curses 0x01 ∧
    ∃ w1, winsch curses 2 (some (blankWindow 1 10 0x20 0 1)) 0x01 = .ret .OK (some w1) 2 :=
  ⟨by decide, by decide, by decide, by decide, by decide, by
    obtain ⟨w1, n, h1, -, -, -, -, h6⟩ :=
      winsch_sync_count curses 0 (blankWindow 1 10 0x20 0 1) 0x01
        (by decide) (by decide) (by decide) (by decide)
    have hn : n = 2 := h6 (by decide) (by decide) (by decide)
    subst hn
    exact ⟨w1, h1⟩⟩

/-- C13: with translation enabled and the cursor inside the bounds check,
`winsch` with a newline does no shift at all: it returns `OK` and the window it
leaves is the one `wclrtoeol` leaves when called once on the original window,
`PDC_sync` being called once afterwards. With `wclrtoeol` as the spec describes
it (`clrToEol`), the cells left of the cursor column are unchanged. -/
theorem winsch_newline (E : Env) (fuel : Nat) (w : WINDOW) (ch : chtype)
    (hc : ¬ (w._cury > w._maxy ∨ w._curx > w._maxx ∨ w._cury < 0 ∨ w._curx < 0))
    (ht : Translated E ch) (h10 : ch &&& E.A_CHARTEXT = 0x0a) :
    winsch E (fuel + 1) (some w) ch = .ret .OK (some (E.wclrtoeol w)) 1 ∧
    (E.wclrtoeol = clrToEol E._NO_CHANGE →
      ∀ i : Int, i < w._curx → (E.wclrtoeol w).cell? w._cury i = w.cell? w._cury i) := by
  constructor
  · rw [winsch_translated E fuel w ch hc ht, if_neg (by rw [h10]; decide), if_pos h10]
  · intro he i hi
    rw [he]
    exact clrToEol_left E._NO_CHANGE w i hi

theorem winsch_newline_witness :
    ¬ ((0 : Int) > 1 ∨ (2 : Int) > 5 ∨ (0 : Int) < 0 ∨ (2 : Int) < 0) ∧
    Translated curses 0x0a ∧ 0x0a &&& curses.A_CHARTEXT = 0x0a ∧
    winsch curses 1 (some { blankWindow 1 5 0x2e 0 2 with
        _y := [[0x61, 0x62, 0x63, 0x64, 0x65]] }) 0x0a =
      .ret .OK (some { blankWindow 1 5 0x2e 0 2 with
        _y := [[0x61, 0x62, 0x2e, 0x2e, 0x2e]]
        _firstch := [2]
        _lastch := [4] }) 1 ∧
    WINDOW.cell? (curses.wclrtoeol { blankWindow 1 5 0x2e 0 2 with
        _y := [[0x61, 0x62, 0x63, 0x64, 0x65]] }) 0 1 = some 0x62 :=
  ⟨by decide, by decide, by decide,
    (winsch_newline curses 0 { blankWindow 1 5 0x2e 0 2 with
        _y := [[0x61, 0x62, 0x63, 0x64, 0x65]] } 0x0a (by decide) (by decide) (by decide)).1,
    ((winsch_newline curses 0 { blankWindow 1 5 0x2e 0 2 with
        _y := [[0x61, 0x62, 0x63, 0x64, 0x65]] } 0x0a (by decide) (by decide) (by decide)).2
      rfl 1 (by decide)).trans (by decide)⟩

/-- C14: let every cell of a well-formed window and the window's background
hold a glyph that is not a control code (not `< 0x20`, not `0x7f`), the
current style hold attribute bits only, and `wclrtoeol` keep the cells
printable (as the one the spec describes does). Then a call of `winsch` with
translation enabled (`raw_out` off, no `A_ALTCHARSET` on the input), for any
character, with the cursor on a cell or outside the bounds check, returns and
leaves a window of which every cell still holds a glyph that is not a control
code. -/
theorem winsch_keeps_glyphs_printable (E : Env) (fuel : Nat) (w : WINDOW) (ch : chtype)
    (hE : E.WF) (hT : 0 < E.TABSIZE) (hw : w.WF)
    (hpos : w.Inside ∨ (w._cury < 0 ∨ w._cury > w._maxy ∨ w._curx < 0 ∨ w._curx > w._maxx))
    (ha : w.AttrsOK E) (hraw : E.raw_out = false) (halt : ch &&& E.A_ALTCHARSET = 0)
    (hg : w.GlyphsOK E)
    (hb : ¬ (w._bkgd &&& E.A_CHARTEXT < 0x20 ∨ w._bkgd &&& E.A_CHARTEXT = 0x7f))
    (hclr : ∀ v : WINDOW, v.GlyphsOK E →
      ¬ (v._bkgd &&& E.A_CHARTEXT < 0x20 ∨ v._bkgd &&& E.A_CHARTEXT = 0x7f) →
      (E.wclrtoeol v).GlyphsOK E) :
    ∃ c w1 n, winsch E (fuel + 2) (some w) ch = .ret c (some w1) n ∧ w1.GlyphsOK E := by
  rcases hpos with hi | ho
  · by_cases ht : Translated E ch
    · by_cases h9 : ch &&& E.A_CHARTEXT = 0x09
      · obtain ⟨hcnt, -⟩ := tab_count w._curx E.TABSIZE hi.2.2.1 hT
        obtain ⟨hloop, -⟩ := tabLoop_inside E hE fuel ch _
          (E.TABSIZE - w._curx % E.TABSIZE).toNat w 0 hw hi rfl
        have h := winsch_translated E (fuel + 1) w ch (check_of_inside w hi) ht
        rw [if_pos h9, if_neg (ne_of_gt hT), hcnt, hloop] at h
        exact ⟨_, _, _, h, insertedTimes_glyphs E w _ hg
          (stored_glyph_printable E hE w ha 0x20 ch
            (text_of_lt_128 E hE 0x20 (by norm_num)).1 (by norm_num) hb) _⟩
      · by_cases h10 : ch &&& E.A_CHARTEXT = 0x0a
        · have h := winsch_translated E (fuel + 1) w ch (check_of_inside w hi) ht
          rw [if_neg h9, if_pos h10] at h
          exact ⟨_, _, _, h, hclr w hg hb⟩
        · have hcomp := caret_companion (ch &&& E.A_CHARTEXT) ht.2
          have hsub := composeAttr_sub E hE w (ch &&& E.A_ATTRIBUTES) (and_and_self _ _)
            (fun _ => ha)
          have s1 := (cell_split E hE 0x5e _ (text_of_lt_128 E hE 0x5e (by norm_num)).1 hsub).2
          have s2 := (cell_split E hE _ _ (text_of_lt_128 E hE _ hcomp.1).1 hsub).2
          refine ⟨_, _, _, winsch_caret_call E hE fuel w ch hw hi ht h9 h10, ?_⟩
          apply inserted_glyphs E _ _ (inserted_glyphs E w _ hg ?_) ?_
          · rw [s2]
            exact hcomp.2.1
          · rw [s1]
            norm_num
    · have hnc : ¬ (ch &&& E.A_CHARTEXT < 0x20 ∨ ch &&& E.A_CHARTEXT = 0x7f) := by
        intro hctl
        apply ht
        refine ⟨?_, hctl⟩
        rw [hraw, halt]
        rfl
      exact ⟨_, _, _, winsch_direct E (fuel + 1) w ch hw hi ht,
        inserted_glyphs E w _ hg
          (stored_glyph_printable E hE w ha _ ch (and_and_self _ _) hnc hb)⟩
  · have hc : w._cury > w._maxy ∨ w._curx > w._maxx ∨ w._cury < 0 ∨ w._curx < 0 := by
      omega
    refine ⟨.ERR, w, 0, ?_, hg⟩
    simp only [winsch]
    rw [if_pos hc]

theorem winsch_keeps_glyphs_printable_witness :
    curses.WF ∧ 0 < curses.TABSIZE ∧ (blankWindow 1 5 0x20 0 1).WF ∧
    (blankWindow 1 5 0x20 0 1).Inside ∧ (blankWindow 1 5 0x20 0 1).AttrsOK curses ∧
    curses.raw_out = false ∧ 0x01 &&& curses.A_ALTCHARSET = 0 ∧
    (blankWindow 1 5 0x20 0 1).GlyphsOK curses ∧
    ¬ (0x20 &&& curses.A_CHARTEXT < 0x20 ∨ 0x20 &&& curses.A_CHARTEXT = 0x7f) ∧
    ∃ c w1 n, winsch curses 2 (some (blankWindow 1 5 0x20 0 1)) 0x01 = .ret c (some w1) n ∧
      w1.GlyphsOK curses :=
  ⟨by decide, by decide, by decide, by decide, by decide, by decide, by decide, by decide,
    by decide,
    winsch_keeps_glyphs_printable curses 0 (blankWindow 1 5 0x20 0 1) 0x01
      (by decide) (by decide) (by decide) (Or.inl (by decide)) (by decide) (by decide)
      (by decide) (by decide) (by decide)
      (fun v hv hbv => clrToEol_glyphs curses (-1) v hv hbv)⟩

/-- C12: `winsch` never moves the cursor. Whatever the window and the
character, if the call returns (`OK` or `ERR`), `_curx` and `_cury` are what
they were before the call: on the direct insertion, the tab expansion and the
delete and control-code notation; and on a translated newline provided
`wclrtoeol` leaves the cursor alone. With the cursor on a cell of a well-formed
window and a positive tab width the call does return `OK`, so a following
insertion lands at the same column. -/
theorem winsch_keeps_cursor (E : Env) (hE : E.WF) (fuel : Nat) (w : WINDOW) (ch : chtype)
    (hnl : Translated E ch → ch &&& E.A_CHARTEXT = 0x0a →
      (E.wclrtoeol w)._curx = w._curx ∧ (E.wclrtoeol w)._cury = w._cury) :
    (∀ c r n, winsch E fuel (some w) ch = .ret c r n →
      ∃ w1, r = some w1 ∧ w1._curx = w._curx ∧ w1._cury = w._cury) ∧
    (w.WF → w.Inside → 0 < E.TABSIZE →
      ∃ w1 n, winsch E (fuel + 2) (some w) ch = .ret .OK (some w1) n ∧
        w1._curx = w._curx ∧ w1._cury = w._cury) := by
  refine ⟨fun c r n h => winsch_cursor E hE fuel w ch hnl c r n h, ?_⟩
  intro hw hi hT
  obtain ⟨w1, n, h⟩ := winsch_inside_returns_OK E hE hT fuel w ch hw hi
  obtain ⟨v, hv, hx, hy⟩ := winsch_cursor E hE (fuel + 2) w ch hnl _ _ _ h
  have hv1 : w1 = v := Option.some.inj hv
  subst hv1
  exact ⟨w1, n, h, hx, hy⟩

theorem winsch_keeps_cursor_witness :
    curses.WF ∧ (blankWindow 1 10 0x20 0 3).WF ∧ (blankWindow 1 10 0x20 0 3).Inside ∧
    0 < curses.TABSIZE ∧
    ∃ w1 n, winsch curses 2 (some (blankWindow 1 10 0x20 0 3)) 0x09 = .ret .OK (some w1) n ∧
      w1._curx = 3 ∧ w1._cury = 0 :=
  ⟨by decide, by decide, by decide, by decide,
    (winsch_keeps_cursor curses (by decide) 0 (blankWindow 1 10 0x20 0 3) 0x09
      (fun _ h => absurd h (by decide))).2 (by decide) (by decide) (by decide)⟩

end PDCurses
